import Mathlib

/-!
Verification of the JSON parser in `src/json.cpp` (a recursive-descent
RFC 8259 parser over a character cursor).

The embedding mirrors the C++ source closely:

* `_StrWrapper` (the string-backed cursor) becomes `Cursor`, a pair of a
  byte offset and an end-of-input flag over a fixed `List Char` input.
  The source computes the flag as `pos == size`; the embedding uses
  `size ≤ pos`, which agrees on every cursor state the parser can reach
  (the position never exceeds `size + 1`) and keeps every definition total.
* each `while (true)` loop becomes a function that is structurally
  recursive on an explicit `fuel` counter, so that all definitions compute
  by kernel reduction; the entry point supplies a fuel that dominates the
  number of loop iterations any input of the given length can cause.
  `Res.out` marks fuel exhaustion and is unreachable from the entry point
  for the inputs considered in the theorems.
* `JsonParseError` keeps the message and the optional offset as separate
  fields; the source's `errorpos` renders both into one string
  (`"Error at position <pos>: <msg>"`) and `error` renders the message
  alone, which `JsonParseError.what` reproduces.
* `double` arithmetic on number payloads is modelled exactly over `ℚ`;
  the claims under test concern the exact value (up to double rounding),
  control flow never branches on a number payload.
-/

/-- Parse errors: the human-readable description plus the byte offset the
source embeds into the message (`none` for the two unpositioned
`INVALID_JSON_DATA` failures raised through `_DataWrapper::error`). -/
structure JsonParseError where
  msg : String
  pos : Option Nat
deriving DecidableEq, Repr

/-- Message rendering of `_DataWrapper::errorpos` / `_DataWrapper::error`. -/
def JsonParseError.what (e : JsonParseError) : String :=
  match e.pos with
  | some p => "Error at position " ++ toString p ++ ": " ++ e.msg
  | none => e.msg

/-- Modelled from the spec: the constant `INVALID_JSON_DATA` is declared in a
header that is not under `src/`; the spec fixes its text as the fixed string
"Invalid JSON data." used for the two unpositioned top-level failures. -/
def INVALID_JSON_DATA : String := "Invalid JSON data."

/-- Result of a parsing function: success, a raised `JsonParseError`, or
`out` when the structural fuel of the embedding is exhausted (unreachable
from `parse_json`'s fuel for the inputs considered in the theorems). -/
inductive Res (α : Type) where
  | ok : α → Res α
  | err : JsonParseError → Res α
  | out : Res α
deriving DecidableEq

/-- The `_StrWrapper` cursor: current byte offset and end-of-input flag. -/
structure Cursor where
  pos : Nat
  eofFlag : Bool
deriving DecidableEq, Repr

/-- Character at offset `p` of the input; reading at or past the end yields
`'\x00'` exactly as `std::string::operator[]` does at `size()` (offsets past
`size()` are never read by the parser). -/
def nth (s : List Char) (p : Nat) : Char := s.getD p (Char.ofNat 0)

/-- End-of-input test used for the cursor flag (`pos >= size`). -/
def atEnd (s : List Char) (p : Nat) : Bool := s.length ≤ p

/-- `_StrWrapper::peek`: read without advancing, refresh the eof flag. -/
def peekC (s : List Char) (c : Cursor) : Char × Cursor :=
  (nth s c.pos, ⟨c.pos, atEnd s c.pos⟩)

/-- `_StrWrapper::get`: read, refresh the eof flag (from the pre-increment
offset, as the source does), then advance. -/
def getC (s : List Char) (c : Cursor) : Char × Cursor :=
  (nth s c.pos, ⟨c.pos + 1, atEnd s c.pos⟩)

/-- `_StrWrapper::operator++`: advance and refresh the eof flag. -/
def incC (s : List Char) (c : Cursor) : Cursor :=
  ⟨c.pos + 1, atEnd s (c.pos + 1)⟩

/-- `_StrWrapper::operator--`: retreat; the source unconditionally clears
the eof flag. -/
def decC (c : Cursor) : Cursor := ⟨c.pos - 1, false⟩

/-! ### Lexical tables (`json.h`) -/

/-- The six structural characters. -/
inductive Structural where
  | begin_array | begin_object | end_array | end_object
  | name_separator | value_separator
deriving DecidableEq

/-- `STRUCTURAL_CHARS`: classification of `[ { ] } : ,`. -/
def structuralOf (c : Char) : Option Structural :=
  if c = '[' then some .begin_array
  else if c = '{' then some .begin_object
  else if c = ']' then some .end_array
  else if c = '}' then some .end_object
  else if c = ':' then some .name_separator
  else if c = ',' then some .value_separator
  else none

/-- `WHITESPACE`: space, tab, line feed, carriage return. -/
def isWsChar (c : Char) : Bool :=
  c = Char.ofNat 0x20 ∨ c = Char.ofNat 0x09 ∨ c = Char.ofNat 0x0A ∨ c = Char.ofNat 0x0D

/-- `isdigit` on ASCII. -/
def isDigitC (c : Char) : Bool := 48 ≤ c.toNat ∧ c.toNat ≤ 57

/-- `tolower(c) == EXPONENT`: the character is `e` or `E`. -/
def isExpChar (c : Char) : Bool := c = 'e' ∨ c = 'E'

/-- `isxdigit` on ASCII. -/
def isHexDigitC (c : Char) : Bool :=
  isDigitC c ∨ (97 ≤ c.toNat ∧ c.toNat ≤ 102) ∨ (65 ≤ c.toNat ∧ c.toNat ≤ 70)

/-- Numeric value of a decimal digit character (`c - '0'`). -/
def digitVal (c : Char) : Nat := c.toNat - 48

/-- Value of a hexadecimal digit: `toupper` then `(c >= 'A') ? c-'A'+10 : c-'0'`,
expressed on character codes. -/
def hexVal (c : Char) : Nat :=
  let u := if 97 ≤ c.toNat ∧ c.toNat ≤ 122 then c.toNat - 32 else c.toNat
  if 65 ≤ u then u - 65 + 10 else u - 48

/-- `ESCAPE_CHARS`: the single-character escape table. -/
def escapeCharOf (c : Char) : Option Char :=
  if c = '"' then some '"'
  else if c = '\\' then some '\\'
  else if c = '/' then some '/'
  else if c = 'b' then some (Char.ofNat 0x08)
  else if c = 'f' then some (Char.ofNat 0x0C)
  else if c = 'n' then some (Char.ofNat 0x0A)
  else if c = 'r' then some (Char.ofNat 0x0D)
  else if c = 't' then some (Char.ofNat 0x09)
  else none

/-! ### The value model -/

/-- The JSON value tree. Strings hold the parser's byte content (UTF-8 bytes
produced by escape decoding appear as characters of code < 256); numbers hold
the exact rational the source's `double` arithmetic denotes; objects are the
association list of insertions. -/
inductive JsonValue where
  | null
  | bool (b : Bool)
  | num (q : ℚ)
  | str (content : List Char)
  | arr (elems : List JsonValue)
  | obj (members : List (List Char × JsonValue))

/-- `Object::count(key)` on the association-list model. -/
def objHasKey (members : List (List Char × JsonValue)) (k : List Char) : Bool :=
  members.any (fun kv => kv.1 = k)

/-- `object[key] = value` for a key that is not yet present. -/
def objInsert (members : List (List Char × JsonValue)) (k : List Char)
    (v : JsonValue) : List (List Char × JsonValue) :=
  members ++ [(k, v)]

/-! ### `parse_number` (json.cpp:230-332) -/

/-- The three phases of the number lexer. -/
inductive NumPart where
  | integer | fraction | exponent
deriving DecidableEq

/-- The mutable locals of `parse_number`'s loop. `intPart`, `fracPart` mirror
the `double` accumulators exactly over `ℚ`; `expPart` mirrors the `double`
exponent accumulator, whose value is always a natural number. -/
structure NumState where
  intPart : ℚ
  fracPart : ℚ
  fracDigits : Nat
  expPart : Nat
  part : NumPart
  leadingZero : Bool
  intEmpty : Bool
  decimalSeen : Bool
  expSeen : Bool
  expEmpty : Bool
  expSignSeen : Bool
  expNegative : Bool
deriving DecidableEq

/-- Initial `parse_number` state (all accumulators zero, all flags clear,
`integer_part_empty` set). -/
def initNumState : NumState :=
  { intPart := 0, fracPart := 0, fracDigits := 0, expPart := 0
    part := .integer, leadingZero := false, intEmpty := true
    decimalSeen := false, expSeen := false, expEmpty := true
    expSignSeen := false, expNegative := false }

/-- The `while (true)` loop of `parse_number`. Returns the state and the
cursor as they stand at `end_of_number` (the caller performs the final
retreat); the only error raised inside the loop is the leading-zero one,
anchored at `startPos`. -/
def numLoop (s : List Char) (fuel : Nat) (startPos : Nat) (cur : Cursor)
    (st : NumState) : Res (NumState × Cursor) :=
  match fuel with
  | 0 => .out
  | fuel + 1 =>
    let (c, cur1) := getC s cur
    if cur1.eofFlag then .ok (st, cur1)
    else
      match st.part with
      | .integer =>
        if c = '.' then
          numLoop s fuel startPos cur1 { st with decimalSeen := true, part := .fraction }
        else if isDigitC c then
          let lz := st.leadingZero || (c = '0' && st.intEmpty)
          if lz && !st.intEmpty then
            .err ⟨"Insignificant leading 0s disallowed.", some startPos⟩
          else
            numLoop s fuel startPos cur1
              { st with intPart := st.intPart * 10 + (digitVal c : ℚ)
                        intEmpty := false, leadingZero := lz }
        else if isExpChar c then
          numLoop s fuel startPos cur1 { st with expSeen := true, part := .exponent }
        else .ok (st, cur1)
      | .fraction =>
        if isDigitC c then
          let n1 := st.fracDigits + 1
          numLoop s fuel startPos cur1
            { st with fracDigits := n1
                      fracPart := st.fracPart + (digitVal c : ℚ) * (10 : ℚ) ^ (-(n1 : ℤ)) }
        else if isExpChar c then
          numLoop s fuel startPos cur1 { st with expSeen := true, part := .exponent }
        else .ok (st, cur1)
      | .exponent =>
        if st.expEmpty && c = '+' && !st.expSignSeen then
          numLoop s fuel startPos cur1 { st with expSignSeen := true }
        else if st.expEmpty && c = '-' && !st.expSignSeen then
          numLoop s fuel startPos cur1 { st with expNegative := true, expSignSeen := true }
        else if isDigitC c then
          numLoop s fuel startPos cur1
            { st with expPart := st.expPart * 10 + digitVal c, expEmpty := false }
        else .ok (st, cur1)

/-- The tail of `parse_number` after the loop (json.cpp:311-331): the final
retreat, the structural validation, and the value assembly
`(integer + fraction) * 10^(±exponent)`, negated if a minus sign was read. -/
def numWrap (startPos : Nat) (negative : Bool) :
    Res (NumState × Cursor) → Res (JsonValue × Cursor)
  | .out => .out
  | .err e => .err e
  | .ok (st, cur1) =>
    let cur2 := decC cur1
    if st.intEmpty ∨ (st.decimalSeen ∧ st.fracDigits = 0) ∨ (st.expSeen ∧ st.expEmpty) then
      .err ⟨"Invalid number literal.", some startPos⟩
    else
      let e : ℤ := if st.expNegative then -(st.expPart : ℤ) else (st.expPart : ℤ)
      let number : ℚ := (st.intPart + st.fracPart) * (10 : ℚ) ^ e
      .ok (.num (if negative then -number else number), cur2)

/-- `parse_number`: optional minus sign, the lexing loop, then `numWrap`. -/
def parse_number (s : List Char) (fuel : Nat) (cur : Cursor) :
    Res (JsonValue × Cursor) :=
  let startPos := cur.pos
  let negative := nth s cur.pos == '-'
  let cur0 := if negative then incC s cur else cur
  numWrap startPos negative (numLoop s fuel startPos cur0 initNumState)

/-- Bridge for concrete number results: the parser's raw rational expression
is extracted by reduction (`h1 := rfl`) and identified with its numeral by
arithmetic (`h2`). -/
theorem num_res_eq {r : Res (JsonValue × Cursor)} {q v : ℚ} {c : Cursor}
    (h1 : r = .ok (.num q, c)) (h2 : q = v) : r = .ok (.num v, c) :=
  h2 ▸ h1

/-- `num_res_eq` for the driver's plain-value results. -/
theorem num_val_eq {r : Res JsonValue} {q v : ℚ}
    (h1 : r = .ok (.num q)) (h2 : q = v) : r = .ok (.num v) :=
  h2 ▸ h1

/-! ### `parse_string` (json.cpp:335-431) -/

/-- The bit-filling loop of `fill_utf8_byte`: `count` iterations of
`byte |= (code_point & 1) << i; code_point >>= 1` starting at bit `i`. -/
def fill_utf8_byte_aux (byte cp : Nat) : Nat → Nat → Nat × Nat
  | _, 0 => (byte, cp)
  | i, count + 1 =>
    fill_utf8_byte_aux (byte ||| ((cp &&& 1) <<< i)) (cp >>> 1) (i + 1) count

/-- `fill_utf8_byte`: fill the low `count` bits of `byte` from `code_point`
and shift them out of `code_point`. -/
def fill_utf8_byte (byte cp count : Nat) : Nat × Nat :=
  fill_utf8_byte_aux byte cp 0 count

/-- The UTF-8 encoding block of `parse_string`'s `unicode_escape` state
(json.cpp:396-422): 1 byte up to 0x7F, 2 bytes up to 0x7FF, else 3 bytes,
each built with `fill_utf8_byte` and the constant high bits. -/
def utf8Encode (cp : Nat) : List Char :=
  if cp ≤ 0x7F then [Char.ofNat cp]
  else if cp ≤ 0x7FF then
    let (b2, cp2) := fill_utf8_byte 0 cp 6
    let (b1, _) := fill_utf8_byte 0 cp2 5
    [Char.ofNat (b1 ||| 0xC0), Char.ofNat (b2 ||| 0x80)]
  else
    let (b3, cp3) := fill_utf8_byte 0 cp 6
    let (b2, cp4) := fill_utf8_byte 0 cp3 6
    let (b1, _) := fill_utf8_byte 0 cp4 4
    [Char.ofNat (b1 ||| 0xE0), Char.ofNat (b2 ||| 0x80), Char.ofNat (b3 ||| 0x80)]

/-- The three states of the string lexer (`StrParsingPart`). -/
inductive StrPart where
  | normal | escape | unicode_escape
deriving DecidableEq

/-- The `while (true)` loop of `parse_string`, carrying the accumulated
result, the Unicode code-point accumulator and its digit count, and the
state. -/
def strLoop (s : List Char) (fuel : Nat) (cur : Cursor) (result : List Char)
    (cp : Nat) (n : Nat) (part : StrPart) : Res (List Char × Cursor) :=
  match fuel with
  | 0 => .out
  | fuel + 1 =>
    let (c, cur1) := getC s cur
    if cur1.eofFlag then
      .err ⟨"Unterminated string literal.", some (cur1.pos - 1)⟩
    else
      match part with
      | .normal =>
        if c = '"' then .ok (result, cur1)
        else if c = '\\' then strLoop s fuel cur1 result cp n .escape
        else strLoop s fuel cur1 (result ++ [c]) cp n .normal
      | .escape =>
        match escapeCharOf c with
        | some ec => strLoop s fuel cur1 (result ++ [ec]) cp n .normal
        | none =>
          if c = 'u' then strLoop s fuel cur1 result cp n .unicode_escape
          else .err ⟨"Invalid escape character.", some (cur1.pos - 1)⟩
      | .unicode_escape =>
        if !isHexDigitC c then
          .err ⟨"Invalid hex character in Unicode escape.", some (cur1.pos - 1)⟩
        else
          let cp1 := cp * 16 + hexVal c
          if n + 1 = 4 then
            strLoop s fuel cur1 (result ++ utf8Encode cp1) 0 0 .normal
          else strLoop s fuel cur1 result cp1 (n + 1) .unicode_escape

/-- `parse_string`: consume the opening quote, run the lexer loop from the
`normal` state. Returns the raw character content (the caller wraps it in
`JsonValue.str` or uses it as an object key). -/
def parse_string (s : List Char) (fuel : Nat) (cur : Cursor) :
    Res (List Char × Cursor) :=
  strLoop s fuel (incC s cur) [] 0 0 .normal

/-! ### `parse_literal_name` (json.cpp:434-458) -/

/-- The `while (true)` loop of `parse_literal_name`, accumulating the
candidate keyword. -/
def litLoop (s : List Char) (fuel : Nat) (cur : Cursor) (name : List Char)
    (startPos : Nat) : Res (JsonValue × Cursor) :=
  match fuel with
  | 0 => .out
  | fuel + 1 =>
    let (c, cur1) := getC s cur
    if cur1.eofFlag then .err ⟨"Invalid literal.", some startPos⟩
    else
      let name1 := name ++ [c]
      if name1.length > 5 then .err ⟨"Invalid literal.", some startPos⟩
      else if name1 = "true".data then .ok (.bool true, cur1)
      else if name1 = "false".data then .ok (.bool false, cur1)
      else if name1 = "null".data then .ok (.null, cur1)
      else litLoop s fuel cur1 name1 startPos

/-- `parse_literal_name`: record the starting offset, run the loop with an
empty accumulator. -/
def parse_literal_name (s : List Char) (fuel : Nat) (cur : Cursor) :
    Res (JsonValue × Cursor) :=
  litLoop s fuel cur [] cur.pos

/-! ### `parse_value`, `parse_array`, `parse_object` (json.cpp:89-227)

The three procedures are mutually recursive; the embedding packs them into
one function over a request tag, structurally recursive on the fuel so that
everything still computes by kernel reduction. -/

/-- The four states of `parse_object`'s loop (`ParsingPart`). -/
inductive ObjPart where
  | name | colon | value | comma
deriving DecidableEq

/-- Request tag for the mutually recursive grammar procedures: a plain
entry (`value`, `array`, `object`) or a loop continuation carrying the
loop's mutable locals. -/
inductive PReq where
  | value
  | array
  | arrayLoop (array : List JsonValue) (expectingComma : Bool)
  | object
  | objectLoop (object : List (List Char × JsonValue)) (key : List Char)
      (part : ObjPart)

/-- The mutually recursive core: `parse_value` dispatch, `parse_array` and
its loop, `parse_object` and its loop. -/
def parseMut (s : List Char) (fuel : Nat) (req : PReq) (cur : Cursor) :
    Res (JsonValue × Cursor) :=
  match fuel with
  | 0 => .out
  | fuel + 1 =>
    match req with
    | .value =>
      let (c, _) := peekC s cur
      if c = '"' then
        match parse_string s fuel cur with
        | .ok (cs, cur1) => .ok (.str cs, cur1)
        | .err e => .err e
        | .out => .out
      else if c = '-' ∨ isDigitC c then parse_number s fuel cur
      else
        match structuralOf c with
        | some .begin_array => parseMut s fuel .array cur
        | some .begin_object => parseMut s fuel .object cur
        | some _ => .err ⟨"Invalid structural character.", some cur.pos⟩
        | none => parse_literal_name s fuel cur
    | .array => parseMut s fuel (.arrayLoop [] false) (incC s cur)
    | .arrayLoop array expectingComma =>
      let (c, curP) := peekC s cur
      if curP.eofFlag then .err ⟨"Array not closed.", some cur.pos⟩
      else if isWsChar c then parseMut s fuel (.arrayLoop array expectingComma) (incC s cur)
      else if expectingComma then
        match structuralOf c with
        | some .value_separator => parseMut s fuel (.arrayLoop array false) (incC s cur)
        | some .end_array => .ok (.arr array, incC s cur)
        | _ => .err ⟨"Expected comma.", some cur.pos⟩
      else if structuralOf c = some .end_array then
        if array.isEmpty then .ok (.arr array, incC s cur)
        else .err ⟨"Expected value.", some cur.pos⟩
      else
        match parseMut s fuel .value cur with
        | .ok (v, cur1) => parseMut s fuel (.arrayLoop (array ++ [v]) true) cur1
        | .err e => .err e
        | .out => .out
    | .object => parseMut s fuel (.objectLoop [] [] .name) (incC s cur)
    | .objectLoop object key part =>
      let (c, curP) := peekC s cur
      if curP.eofFlag then .err ⟨"Object not closed.", some cur.pos⟩
      else if isWsChar c then parseMut s fuel (.objectLoop object key part) (incC s cur)
      else
        match part with
        | .name =>
          if object.isEmpty ∧ structuralOf c = some .end_object then
            .ok (.obj object, incC s cur)
          else if c = '"' then
            let keyStartPos := cur.pos
            match parse_string s fuel cur with
            | .ok (k, cur1) =>
              if objHasKey object k then
                .err ⟨"Duplicate key disallowed.", some keyStartPos⟩
              else parseMut s fuel (.objectLoop object k .colon) cur1
            | .err e => .err e
            | .out => .out
          else .err ⟨"Expected string literal as object key.", some cur.pos⟩
        | .colon =>
          if structuralOf c = some .name_separator then
            parseMut s fuel (.objectLoop object key .value) (incC s cur)
          else .err ⟨"Expected colon.", some cur.pos⟩
        | .value =>
          match parseMut s fuel .value cur with
          | .ok (v, cur1) =>
            parseMut s fuel (.objectLoop (objInsert object key v) key .comma) cur1
          | .err e => .err e
          | .out => .out
        | .comma =>
          match structuralOf c with
          | some .end_object => .ok (.obj object, incC s cur)
          | some .value_separator => parseMut s fuel (.objectLoop object key .name) (incC s cur)
          | _ => .err ⟨"Expected comma.", some cur.pos⟩

/-- `parse_value` (json.cpp:90-112). -/
def parse_value (s : List Char) (fuel : Nat) (cur : Cursor) :
    Res (JsonValue × Cursor) :=
  parseMut s fuel .value cur

/-- `parse_array` (json.cpp:115-159). -/
def parse_array (s : List Char) (fuel : Nat) (cur : Cursor) :
    Res (JsonValue × Cursor) :=
  parseMut s fuel .array cur

/-- `parse_object` (json.cpp:162-227). -/
def parse_object (s : List Char) (fuel : Nat) (cur : Cursor) :
    Res (JsonValue × Cursor) :=
  parseMut s fuel .object cur

/-! ### `parse_json` (json.cpp:461-492) -/

/-- The `while (true)` loop of the top-level driver `parse_json`. -/
def jsonLoop (s : List Char) (fuel : Nat) (cur : Cursor) (result : JsonValue)
    (parsed : Bool) : Res JsonValue :=
  match fuel with
  | 0 => .out
  | fuel + 1 =>
    let (c, curP) := peekC s cur
    if curP.eofFlag then
      if parsed then .ok result else .err ⟨INVALID_JSON_DATA, none⟩
    else if isWsChar c then jsonLoop s fuel (incC s cur) result parsed
    else if parsed then .err ⟨INVALID_JSON_DATA, none⟩
    else
      match parseMut s fuel .value cur with
      | .ok (v, cur1) => jsonLoop s fuel cur1 v true
      | .err e => .err e
      | .out => .out

/-- Fuel budget of the driver: a crude upper bound on the total number of
loop iterations and nested calls any input of length `n` can cause (every
loop iteration past a small per-nesting overhead consumes a character). -/
def fuelFor (n : Nat) : Nat := 8 * n + 16

/-- `parse_json(const std::string&)`: a fresh cursor over the whole input. -/
def parse_json (s : List Char) : Res JsonValue :=
  jsonLoop s (fuelFor s.length) ⟨0, false⟩ .null false

/-! ### Basic cursor and character facts -/

theorem atEnd_false {s : List Char} {p : Nat} (h : p < s.length) :
    atEnd s p = false := by
  simp [atEnd]; omega

theorem atEnd_true {s : List Char} {p : Nat} (h : s.length ≤ p) :
    atEnd s p = true := by
  simp [atEnd, h]

theorem nth_beyond {s : List Char} {p : Nat} (h : s.length ≤ p) :
    nth s p = Char.ofNat 0 := by
  simp [nth, List.getD, List.getElem?_eq_none h]

theorem digit_toNat {c : Char} (h : isDigitC c = true) :
    48 ≤ c.toNat ∧ c.toNat ≤ 57 := by
  simpa [isDigitC] using h

theorem digit_toNat_of_eq {c d : Char} (h : isDigitC c = true) (hcd : c = d) :
    48 ≤ d.toNat ∧ d.toNat ≤ 57 := hcd ▸ digit_toNat h

/-- `readsAt s p l`: the characters of `l` appear verbatim in `s` starting
at offset `p` (in particular they all lie inside the input). -/
def readsAt (s : List Char) : Nat → List Char → Bool
  | _, [] => true
  | p, c :: l => (nth s p = c) && (decide (p < s.length)) && readsAt s (p + 1) l

theorem readsAt_cons {s : List Char} {p : Nat} {c : Char} {l : List Char} :
    readsAt s p (c :: l) = true ↔
      nth s p = c ∧ p < s.length ∧ readsAt s (p + 1) l = true := by
  simp [readsAt, and_assoc]

theorem readsAt_append {s : List Char} {l1 l2 : List Char} :
    ∀ {p : Nat}, readsAt s p (l1 ++ l2) = true ↔
      (readsAt s p l1 = true ∧ readsAt s (p + l1.length) l2 = true) := by
  induction l1 with
  | nil => simp [readsAt]
  | cons c l ih =>
    intro p
    simp only [List.cons_append, readsAt_cons, ih, List.length_cons]
    constructor
    · rintro ⟨h1, h2, h3, h4⟩
      exact ⟨⟨h1, h2, h3⟩, by rw [show p + (l.length + 1) = p + 1 + l.length by omega]; exact h4⟩
    · rintro ⟨⟨h1, h2, h3⟩, h4⟩
      exact ⟨h1, h2, h3, by rw [show p + 1 + l.length = p + (l.length + 1) by omega]; exact h4⟩

/-! ### `numLoop` lemmas -/

/-- The number loop reads only the cursor's offset, never its stored flag. -/
theorem numLoop_flag {s : List Char} {fuel sp : Nat} {p : Nat} {b b' : Bool}
    {st : NumState} :
    numLoop s fuel sp ⟨p, b⟩ st = numLoop s fuel sp ⟨p, b'⟩ st := by
  cases fuel with
  | zero => rfl
  | succ fuel => simp only [numLoop, getC]

/-- The only error the number loop itself raises is the leading-zero one,
anchored at the recorded start offset. -/
theorem numLoop_err {s : List Char} {sp : Nat} :
    ∀ {fuel : Nat} {cur : Cursor} {st : NumState} {e : JsonParseError},
      numLoop s fuel sp cur st = .err e →
      e = ⟨"Insignificant leading 0s disallowed.", some sp⟩ := by
  intro fuel
  induction fuel with
  | zero => intro cur st e h; simp [numLoop] at h
  | succ fuel ih =>
    intro cur st e h
    simp only [numLoop] at h
    split at h
    · exact absurd h (by simp)
    · split at h
      · split at h
        · exact ih h
        · split at h
          · split at h
            · exact (Res.err.injEq .. ▸ h).symm ▸ rfl
            · exact ih h
          · split at h
            · exact ih h
            · exact absurd h (by simp)
      · split at h
        · exact ih h
        · split at h
          · exact ih h
          · exact absurd h (by simp)
      · split at h
        · exact ih h
        · split at h
          · exact ih h
          · split at h
            · exact ih h
            · exact absurd h (by simp)

/-- All characters are decimal digits. -/
def allDigits (l : List Char) : Bool := l.all isDigitC

/-- The claim's integer accumulator: `value = value * 10 + digit`, folded
over the digit characters. -/
def intAcc (q : ℚ) : List Char → ℚ
  | [] => q
  | d :: ds => intAcc (q * 10 + (digitVal d : ℚ)) ds

/-- The claim's fractional accumulator: the `n`-th digit after the point
contributes `digit * 10 ^ (-n)`; returns the accumulated sum and the new
digit count. -/
def fracGo (q : ℚ) (n : Nat) : List Char → ℚ × Nat
  | [] => (q, n)
  | d :: ds => fracGo (q + (digitVal d : ℚ) * (10 : ℚ) ^ (-((n + 1 : Nat) : ℤ))) (n + 1) ds

/-- The exponent-magnitude accumulator: `value = value * 10 + digit`,
paired with the `exponent_empty` flag it clears on each digit. -/
def expGo (v : Nat) (e : Bool) : List Char → Nat × Bool
  | [] => (v, e)
  | d :: ds => expGo (v * 10 + digitVal d) false ds

theorem expGo_nil (v : Nat) (e : Bool) : expGo v e [] = (v, e) := rfl

theorem expGo_cons (v : Nat) (e : Bool) (d : Char) (ds : List Char) :
    expGo v e (d :: ds) = expGo (v * 10 + digitVal d) false ds := rfl

theorem expGo_snd_false : ∀ (ds : List Char) (v : Nat),
    (expGo v false ds).2 = false := by
  intro ds
  induction ds with
  | nil => intro v; rfl
  | cons d ds ih =>
    intro v
    rw [expGo_cons]
    exact ih (v * 10 + digitVal d)

theorem expGo_snd_cons (d : Char) (ds : List Char) (v : Nat) (e : Bool) :
    (expGo v e (d :: ds)).2 = false := by
  rw [expGo_cons]
  exact expGo_snd_false ds _

/-- No insignificant leading zero: the digit string is empty, a single
digit, or starts with a nonzero digit. -/
def lzOk : List Char → Bool
  | '0' :: _ :: _ => false
  | _ => true

/-- A character that ends a number token from any phase of the lexer:
not a digit, not the decimal point, not an exponent marker, not a sign
(the NUL sentinel read at end of input qualifies). -/
def isStopChar (c : Char) : Bool :=
  !isDigitC c && c ≠ '.' && !isExpChar c && c ≠ '+' && c ≠ '-'

theorem stop_props {c : Char} (h : isStopChar c = true) :
    isDigitC c = false ∧ c ≠ '.' ∧ isExpChar c = false ∧ c ≠ '+' ∧ c ≠ '-' := by
  simp [isStopChar] at h
  tauto

/-- Digit-consuming run of the integer phase, from a state with a nonempty
integer part and no recorded leading zero. -/
theorem numLoop_int_run {s : List Char} {sp : Nat} :
    ∀ (ds : List Char) {fuel p : Nat} {st : NumState},
      st.part = .integer → st.leadingZero = false → st.intEmpty = false →
      allDigits ds = true → readsAt s p ds = true →
      numLoop s (fuel + ds.length) sp ⟨p, false⟩ st =
        numLoop s fuel sp ⟨p + ds.length, false⟩
          { st with intPart := intAcc st.intPart ds } := by
  intro ds
  induction ds with
  | nil =>
    intro fuel p st hpt hlz hie _ _
    simp [intAcc]
  | cons d ds ih =>
    intro fuel p st hpt hlz hie hall hreads
    obtain ⟨hc, hp, hrest⟩ := readsAt_cons.mp hreads
    have hd : isDigitC d = true := by
      simp [allDigits] at hall; exact hall.1
    have hall' : allDigits ds = true := by
      simp [allDigits] at hall ⊢; exact hall.2
    have hnd : d ≠ '.' := by rintro rfl; simp [isDigitC] at hd
    have hlen : fuel + (d :: ds).length = (fuel + ds.length) + 1 := by
      simp; omega
    rw [hlen]
    simp only [numLoop]
    simp [getC, hc, atEnd_false hp, hpt, hlz, hie, hd, hnd]
    rw [ih (by simp) (by simp) (by simp) hall' hrest]
    have : p + 1 + ds.length = p + (d :: ds).length := by simp; omega
    rw [this]
    simp [intAcc]

/-- The decimal point moves the integer phase to the fraction phase. -/
theorem numLoop_dot_step {s : List Char} {sp fuel p : Nat} {b : Bool}
    {st : NumState} (hpt : st.part = .integer) (hp : p < s.length)
    (hc : nth s p = '.') :
    numLoop s (fuel + 1) sp ⟨p, b⟩ st =
      numLoop s fuel sp ⟨p + 1, false⟩
        { st with decimalSeen := true, part := .fraction } := by
  simp only [numLoop]
  simp [getC, hc, atEnd_false hp, hpt]

theorem exp_char_cases {c : Char} (h : isExpChar c = true) : c = 'e' ∨ c = 'E' := by
  simpa [isExpChar] using h

/-- An exponent marker moves the integer phase directly to the exponent
phase. -/
theorem numLoop_eint_step {s : List Char} {sp fuel p : Nat} {b : Bool}
    {st : NumState} (hpt : st.part = .integer) (hp : p < s.length)
    (hc : isExpChar (nth s p) = true) :
    numLoop s (fuel + 1) sp ⟨p, b⟩ st =
      numLoop s fuel sp ⟨p + 1, false⟩
        { st with expSeen := true, part := .exponent } := by
  have hne : nth s p ≠ '.' := by
    rcases exp_char_cases hc with h | h <;> simp [h]
  have hnd : isDigitC (nth s p) = false := by
    rcases exp_char_cases hc with h | h <;> simp [h, isDigitC]
  simp only [numLoop]
  simp [getC, atEnd_false hp, hpt, hne, hnd, hc]

/-- Digit-consuming run of the fraction phase. -/
theorem numLoop_frac_run {s : List Char} {sp : Nat} :
    ∀ (ds : List Char) {fuel p : Nat} {st : NumState},
      st.part = .fraction → allDigits ds = true → readsAt s p ds = true →
      numLoop s (fuel + ds.length) sp ⟨p, false⟩ st =
        numLoop s fuel sp ⟨p + ds.length, false⟩
          { st with fracPart := (fracGo st.fracPart st.fracDigits ds).1
                    fracDigits := (fracGo st.fracPart st.fracDigits ds).2 } := by
  intro ds
  induction ds with
  | nil =>
    intro fuel p st hpt _ _
    simp [fracGo]
  | cons d ds ih =>
    intro fuel p st hpt hall hreads
    obtain ⟨hc, hp, hrest⟩ := readsAt_cons.mp hreads
    have hd : isDigitC d = true := by
      simp [allDigits] at hall; exact hall.1
    have hall' : allDigits ds = true := by
      simp [allDigits] at hall ⊢; exact hall.2
    have hlen : fuel + (d :: ds).length = (fuel + ds.length) + 1 := by
      simp; omega
    rw [hlen]
    simp only [numLoop]
    simp [getC, hc, atEnd_false hp, hpt, hd]
    rw [ih (by simp) hall' hrest]
    have : p + 1 + ds.length = p + (d :: ds).length := by simp; omega
    rw [this]
    simp [fracGo]

/-- An exponent marker moves the fraction phase to the exponent phase. -/
theorem numLoop_efrac_step {s : List Char} {sp fuel p : Nat} {b : Bool}
    {st : NumState} (hpt : st.part = .fraction) (hp : p < s.length)
    (hc : isExpChar (nth s p) = true) :
    numLoop s (fuel + 1) sp ⟨p, b⟩ st =
      numLoop s fuel sp ⟨p + 1, false⟩
        { st with expSeen := true, part := .exponent } := by
  have hnd : isDigitC (nth s p) = false := by
    rcases exp_char_cases hc with h | h <;> simp [h, isDigitC]
  simp only [numLoop]
  simp [getC, atEnd_false hp, hpt, hnd, hc]

/-- A leading `+` in the exponent phase is recorded and consumed. -/
theorem numLoop_plus_step {s : List Char} {sp fuel p : Nat} {b : Bool}
    {st : NumState} (hpt : st.part = .exponent) (hee : st.expEmpty = true)
    (hss : st.expSignSeen = false) (hp : p < s.length) (hc : nth s p = '+') :
    numLoop s (fuel + 1) sp ⟨p, b⟩ st =
      numLoop s fuel sp ⟨p + 1, false⟩ { st with expSignSeen := true } := by
  simp only [numLoop]
  simp [getC, hc, atEnd_false hp, hpt, hee, hss]

/-- A leading `-` in the exponent phase is recorded and consumed. -/
theorem numLoop_minus_step {s : List Char} {sp fuel p : Nat} {b : Bool}
    {st : NumState} (hpt : st.part = .exponent) (hee : st.expEmpty = true)
    (hss : st.expSignSeen = false) (hp : p < s.length) (hc : nth s p = '-') :
    numLoop s (fuel + 1) sp ⟨p, b⟩ st =
      numLoop s fuel sp ⟨p + 1, false⟩
        { st with expNegative := true, expSignSeen := true } := by
  simp only [numLoop]
  simp [getC, hc, atEnd_false hp, hpt, hee, hss]

/-- Digit-consuming run of the exponent phase. -/
theorem numLoop_exp_run {s : List Char} {sp : Nat} :
    ∀ (ds : List Char) {fuel p : Nat} {st : NumState},
      st.part = .exponent → allDigits ds = true → readsAt s p ds = true →
      numLoop s (fuel + ds.length) sp ⟨p, false⟩ st =
        numLoop s fuel sp ⟨p + ds.length, false⟩
          { st with expPart := (expGo st.expPart st.expEmpty ds).1
                    expEmpty := (expGo st.expPart st.expEmpty ds).2 } := by
  intro ds
  induction ds with
  | nil =>
    intro fuel p st hpt _ _
    simp [expGo_nil]
  | cons d ds ih =>
    intro fuel p st hpt hall hreads
    obtain ⟨hc, hp, hrest⟩ := readsAt_cons.mp hreads
    have hd : isDigitC d = true := by
      simp [allDigits] at hall; exact hall.1
    have hall' : allDigits ds = true := by
      simp [allDigits] at hall ⊢; exact hall.2
    have hdp : d ≠ '+' := by rintro rfl; simp [isDigitC] at hd
    have hdm : d ≠ '-' := by rintro rfl; simp [isDigitC] at hd
    have hlen : fuel + (d :: ds).length = (fuel + ds.length) + 1 := by
      simp; omega
    rw [hlen]
    simp only [numLoop]
    simp [getC, hc, atEnd_false hp, hpt, hd, hdp, hdm]
    rw [ih (by simp) hall' hrest]
    have : p + 1 + ds.length = p + (d :: ds).length := by simp; omega
    rw [this]
    simp [expGo_cons]

/-- A character that extends no phase ends the number from the integer
phase (the end-of-input pseudo-read included). -/
theorem numLoop_end_int {s : List Char} {sp fuel p : Nat} {b : Bool}
    {st : NumState} (hpt : st.part = .integer)
    (h1 : isDigitC (nth s p) = false) (h2 : nth s p ≠ '.')
    (h3 : isExpChar (nth s p) = false) :
    numLoop s (fuel + 1) sp ⟨p, b⟩ st = .ok (st, ⟨p + 1, atEnd s p⟩) := by
  simp only [numLoop]
  cases hae : atEnd s p with
  | true => simp [getC, hae]
  | false => simp [getC, hae, hpt, h1, h2, h3]

/-- A non-digit, non-exponent character ends the number from the fraction
phase. -/
theorem numLoop_end_frac {s : List Char} {sp fuel p : Nat} {b : Bool}
    {st : NumState} (hpt : st.part = .fraction)
    (h1 : isDigitC (nth s p) = false) (h3 : isExpChar (nth s p) = false) :
    numLoop s (fuel + 1) sp ⟨p, b⟩ st = .ok (st, ⟨p + 1, atEnd s p⟩) := by
  simp only [numLoop]
  cases hae : atEnd s p with
  | true => simp [getC, hae]
  | false => simp [getC, hae, hpt, h1, h3]

/-- A non-digit, non-sign character ends the number from the exponent
phase. -/
theorem numLoop_end_exp {s : List Char} {sp fuel p : Nat} {b : Bool}
    {st : NumState} (hpt : st.part = .exponent)
    (h1 : isDigitC (nth s p) = false) (h2 : nth s p ≠ '+')
    (h3 : nth s p ≠ '-') :
    numLoop s (fuel + 1) sp ⟨p, b⟩ st = .ok (st, ⟨p + 1, atEnd s p⟩) := by
  simp only [numLoop]
  cases hae : atEnd s p with
  | true => simp [getC, hae]
  | false => simp [getC, hae, hpt, h1, h2, h3]

/-- Any non-digit character ends the number from the exponent phase once a
digit has been accumulated. -/
theorem numLoop_end_exp_filled {s : List Char} {sp fuel p : Nat} {b : Bool}
    {st : NumState} (hpt : st.part = .exponent) (hee : st.expEmpty = false)
    (h1 : isDigitC (nth s p) = false) :
    numLoop s (fuel + 1) sp ⟨p, b⟩ st = .ok (st, ⟨p + 1, atEnd s p⟩) := by
  simp only [numLoop]
  cases hae : atEnd s p with
  | true => simp [getC, hae]
  | false => simp [getC, hae, hpt, h1, hee]

/-- Any non-digit character ends the number from the exponent phase once a
sign has been consumed. -/
theorem numLoop_end_exp_signed {s : List Char} {sp fuel p : Nat} {b : Bool}
    {st : NumState} (hpt : st.part = .exponent) (hss : st.expSignSeen = true)
    (h1 : isDigitC (nth s p) = false) :
    numLoop s (fuel + 1) sp ⟨p, b⟩ st = .ok (st, ⟨p + 1, atEnd s p⟩) := by
  simp only [numLoop]
  cases hae : atEnd s p with
  | true => simp [getC, hae]
  | false => simp [getC, hae, hpt, h1, hss]

theorem fracGo_nil (q : ℚ) (n : Nat) : fracGo q n [] = (q, n) := rfl

theorem fracGo_cons (q : ℚ) (n : Nat) (d : Char) (ds : List Char) :
    fracGo q n (d :: ds) =
      fracGo (q + (digitVal d : ℚ) * (10 : ℚ) ^ (-((n + 1 : Nat) : ℤ))) (n + 1) ds := rfl

theorem fracGo_snd : ∀ (ds : List Char) (q : ℚ) (n : Nat),
    (fracGo q n ds).2 = n + ds.length := by
  intro ds
  induction ds with
  | nil => intro q n; simp [fracGo_nil]
  | cons d ds ih =>
    intro q n
    rw [fracGo_cons, ih]
    simp; omega

/-- The state of the number lexer after the integer digits of the token
have been consumed from the initial state. -/
def intState (ds : List Char) : NumState :=
  { initNumState with intPart := intAcc 0 ds, intEmpty := ds.isEmpty
                      leadingZero := decide (ds = ['0']) }

/-- Consuming the integer digits of a token (no leading-zero violation)
from the initial state. -/
theorem numLoop_int_entry {s : List Char} {sp : Nat} :
    ∀ (ds : List Char) {fuel p : Nat},
      allDigits ds = true → lzOk ds = true → readsAt s p ds = true →
      numLoop s (fuel + ds.length) sp ⟨p, false⟩ initNumState =
        numLoop s fuel sp ⟨p + ds.length, false⟩ (intState ds) := by
  intro ds
  match ds with
  | [] =>
    intro fuel p _ _ _
    simp [intState, initNumState, intAcc]
  | d :: ds' =>
    intro fuel p hall hlz hreads
    obtain ⟨hc, hp, hrest⟩ := readsAt_cons.mp hreads
    have hd : isDigitC d = true := by
      simp [allDigits] at hall; exact hall.1
    have hall' : allDigits ds' = true := by
      simp [allDigits] at hall ⊢; exact hall.2
    have hnd : d ≠ '.' := by rintro rfl; simp [isDigitC] at hd
    have hlen : fuel + (d :: ds').length = (fuel + ds'.length) + 1 := by
      simp; omega
    rw [hlen]
    by_cases h0 : d = '0'
    · subst h0
      have hnil : ds' = [] := by
        cases ds' with
        | nil => rfl
        | cons e es => simp [lzOk] at hlz
      subst hnil
      simp only [numLoop]
      simp [getC, hc, atEnd_false hp, hd, initNumState, intState, intAcc]
    · simp only [numLoop]
      simp [getC, hc, atEnd_false hp, initNumState, hd, hnd, h0]
      rw [@numLoop_int_run s sp ds' fuel (p + 1)
          ⟨(digitVal d : ℚ), 0, 0, 0, .integer, false, false, false,
            false, true, false, false⟩
          rfl rfl rfl hall' hrest]
      have hpp : p + 1 + ds'.length = p + (d :: ds').length := by simp; omega
      rw [hpp]
      have hst : intState (d :: ds') =
          (⟨intAcc ((digitVal d : ℚ)) ds', 0, 0, 0, .integer, false, false,
            false, false, true, false, false⟩ : NumState) := by
        have harg : ((0 : ℚ) * 10 + (digitVal d : ℚ)) = (digitVal d : ℚ) := by ring
        simp [intState, initNumState, intAcc, h0, harg]
      rw [hst]
      rfl

/-- Rendering of the fraction segment of a number token. -/
def frRender : Option (List Char) → List Char
  | none => []
  | some ds2 => '.' :: ds2

theorem frRender_none : frRender none = [] := rfl
theorem frRender_some (ds2 : List Char) : frRender (some ds2) = '.' :: ds2 := rfl

/-- Rendering of the sign of an exponent segment. -/
def sgRender : Option Char → List Char
  | none => []
  | some sc => [sc]

theorem sgRender_none : sgRender none = [] := rfl
theorem sgRender_some (sc : Char) : sgRender (some sc) = [sc] := rfl

/-- Rendering of the exponent segment of a number token. -/
def exRender : Option (Char × Option Char × List Char) → List Char
  | none => []
  | some (ec, sg, ds3) => ec :: (sgRender sg ++ ds3)

theorem exRender_none : exRender none = [] := rfl
theorem exRender_some (ec : Char) (sg : Option Char) (ds3 : List Char) :
    exRender (some (ec, sg, ds3)) = ec :: (sgRender sg ++ ds3) := rfl

/-- The text of a number token: optional minus sign, integer digits,
optional `.`-prefixed fraction digits, optional exponent marker with
optional sign and exponent digits. -/
def numRender (neg : Bool) (ds1 : List Char) (fr : Option (List Char))
    (ex : Option (Char × Option Char × List Char)) : List Char :=
  (if neg then ['-'] else []) ++ ds1 ++ frRender fr ++ exRender ex

/-- The value the claim's formula assigns to a number token:
`(integer_accumulator + fractional_accumulator) * 10 ^ (signed exponent)`,
negated exactly once when the minus sign is present. -/
def numValSpec (neg : Bool) (ds1 : List Char) (fr : Option (List Char))
    (ex : Option (Char × Option Char × List Char)) : ℚ :=
  let fp : ℚ := match fr with
    | none => 0
    | some ds2 => (fracGo 0 0 ds2).1
  let em : Nat := match ex with
    | none => 0
    | some (_, _, ds3) => (expGo 0 true ds3).1
  let eneg : Bool := match ex with
    | some (_, some sc, _) => decide (sc = '-')
    | _ => false
  let e : ℤ := if eneg then -(em : ℤ) else (em : ℤ)
  let q : ℚ := (intAcc 0 ds1 + fp) * (10 : ℚ) ^ e
  if neg then -q else q

/-- A character that stops the number lexer right after the given token
shape: no character that the final phase would still consume. -/
def numStop (fr : Option (List Char)) (ex : Option (Char × Option Char × List Char))
    (c : Char) : Bool :=
  match ex, fr with
  | some (_, sg, ds3), _ =>
    if ds3.isEmpty && sg = none then !isDigitC c && c ≠ '+' && c ≠ '-'
    else !isDigitC c
  | none, some _ => !isDigitC c && !isExpChar c
  | none, none => !isDigitC c && c ≠ '.' && !isExpChar c

/-- Running the loop over integer digits followed by a stopping character. -/
theorem numBody_int {s : List Char} {sp : Nat} (ds1 : List Char) {g p : Nat}
    (h1 : allDigits ds1 = true) (hlz : lzOk ds1 = true)
    (hr : readsAt s p ds1 = true)
    (hstop1 : isDigitC (nth s (p + ds1.length)) = false)
    (hstop2 : nth s (p + ds1.length) ≠ '.')
    (hstop3 : isExpChar (nth s (p + ds1.length)) = false) :
    numLoop s ((g + 1) + ds1.length) sp ⟨p, false⟩ initNumState =
      .ok (intState ds1, ⟨p + ds1.length + 1, atEnd s (p + ds1.length)⟩) := by
  rw [numLoop_int_entry ds1 h1 hlz hr]
  exact numLoop_end_int rfl hstop1 hstop2 hstop3

/-- Running the loop over integer digits, a decimal point, fraction digits,
then a stopping character. -/
theorem numBody_frac {s : List Char} {sp : Nat} (ds1 ds2 : List Char)
    {g p : Nat}
    (h1 : allDigits ds1 = true) (hlz : lzOk ds1 = true)
    (hr1 : readsAt s p ds1 = true)
    (hdlt : p + ds1.length < s.length)
    (hdot : nth s (p + ds1.length) = '.')
    (h2 : allDigits ds2 = true)
    (hr2 : readsAt s (p + ds1.length + 1) ds2 = true)
    (hstop1 : isDigitC (nth s (p + ds1.length + 1 + ds2.length)) = false)
    (hstop3 : isExpChar (nth s (p + ds1.length + 1 + ds2.length)) = false) :
    numLoop s ((((g + 1) + ds2.length) + 1) + ds1.length) sp ⟨p, false⟩ initNumState =
      .ok ({ intState ds1 with
             decimalSeen := true
             part := .fraction
             fracPart := (fracGo 0 0 ds2).1
             fracDigits := (fracGo 0 0 ds2).2 },
        ⟨p + ds1.length + 1 + ds2.length + 1,
          atEnd s (p + ds1.length + 1 + ds2.length)⟩) := by
  rw [numLoop_int_entry ds1 h1 hlz hr1]
  rw [numLoop_dot_step rfl hdlt hdot]
  rw [numLoop_frac_run ds2 rfl h2 hr2]
  exact numLoop_end_frac rfl hstop1 hstop3

/-- Running the loop over integer digits, an exponent marker, an optional
sign, exponent digits, then a stopping character. -/
theorem numBody_exp {s : List Char} {sp : Nat} (ds1 : List Char)
    (sg : Option Char) (ds3 : List Char) {g p : Nat} {ec : Char}
    (h1 : allDigits ds1 = true) (hlz : lzOk ds1 = true)
    (hr1 : readsAt s p ds1 = true)
    (helt : p + ds1.length < s.length)
    (hec : nth s (p + ds1.length) = ec) (hece : isExpChar ec = true)
    (hsg : ∀ sc, sg = some sc → sc = '+' ∨ sc = '-')
    (hsglt : ∀ sc, sg = some sc → p + ds1.length + 1 < s.length ∧
      nth s (p + ds1.length + 1) = sc)
    (h3 : allDigits ds3 = true)
    (hr3 : readsAt s (p + ds1.length + 1 + (sgRender sg).length) ds3 = true)
    (hstop1 : isDigitC
      (nth s (p + ds1.length + 1 + (sgRender sg).length + ds3.length)) = false)
    (hstopS : ds3 = [] → sg = none →
      nth s (p + ds1.length + 1 + (sgRender sg).length + ds3.length) ≠ '+' ∧
        nth s (p + ds1.length + 1 + (sgRender sg).length + ds3.length) ≠ '-') :
    numLoop s (((((g + 1) + ds3.length) + (sgRender sg).length) + 1) + ds1.length)
        sp ⟨p, false⟩ initNumState =
      .ok ({ intState ds1 with
             part := .exponent
             expSeen := true
             expSignSeen := sg.isSome
             expNegative := decide (sg = some '-')
             expPart := (expGo 0 true ds3).1
             expEmpty := (expGo 0 true ds3).2 },
        ⟨p + ds1.length + 1 + (sgRender sg).length + ds3.length + 1,
          atEnd s (p + ds1.length + 1 + (sgRender sg).length + ds3.length)⟩) := by
  rw [numLoop_int_entry ds1 h1 hlz hr1]
  have hece' : isExpChar (nth s (p + ds1.length)) = true := by rw [hec]; exact hece
  rw [numLoop_eint_step rfl helt hece']
  cases sg with
  | none =>
    simp only [sgRender_none, List.length_nil, Nat.add_zero] at hr3 hstop1 hstopS ⊢
    rw [numLoop_exp_run ds3 rfl h3 hr3]
    cases ds3 with
    | nil =>
      obtain ⟨hP, hM⟩ := hstopS (by trivial) (by trivial)
      exact numLoop_end_exp rfl hstop1 hP hM
    | cons d3 ds3' =>
      exact numLoop_end_exp_filled rfl (expGo_snd_cons d3 ds3' 0 true) hstop1
  | some sc =>
    obtain ⟨hsclt, hscc⟩ := hsglt sc rfl
    simp only [sgRender_some, List.length_singleton] at hr3 hstop1 hstopS ⊢
    rcases hsg sc rfl with rfl | rfl
    · rw [numLoop_plus_step rfl rfl rfl hsclt hscc]
      rw [numLoop_exp_run ds3 rfl h3 hr3]
      cases ds3 with
      | nil => exact numLoop_end_exp_signed rfl rfl hstop1
      | cons d3 ds3' =>
        exact numLoop_end_exp_filled rfl (expGo_snd_cons d3 ds3' 0 true) hstop1
    · rw [numLoop_minus_step rfl rfl rfl hsclt hscc]
      rw [numLoop_exp_run ds3 rfl h3 hr3]
      cases ds3 with
      | nil => exact numLoop_end_exp_signed rfl rfl hstop1
      | cons d3 ds3' =>
        exact numLoop_end_exp_filled rfl (expGo_snd_cons d3 ds3' 0 true) hstop1

/-- Running the loop over integer digits, a fraction segment, an exponent
segment, then a stopping character. -/
theorem numBody_frac_exp {s : List Char} {sp : Nat} (ds1 ds2 : List Char)
    (sg : Option Char) (ds3 : List Char) {g p : Nat} {ec : Char}
    (h1 : allDigits ds1 = true) (hlz : lzOk ds1 = true)
    (hr1 : readsAt s p ds1 = true)
    (hdlt : p + ds1.length < s.length)
    (hdot : nth s (p + ds1.length) = '.')
    (h2 : allDigits ds2 = true)
    (hr2 : readsAt s (p + ds1.length + 1) ds2 = true)
    (helt : p + ds1.length + 1 + ds2.length < s.length)
    (hec : nth s (p + ds1.length + 1 + ds2.length) = ec)
    (hece : isExpChar ec = true)
    (hsg : ∀ sc, sg = some sc → sc = '+' ∨ sc = '-')
    (hsglt : ∀ sc, sg = some sc → p + ds1.length + 1 + ds2.length + 1 < s.length ∧
      nth s (p + ds1.length + 1 + ds2.length + 1) = sc)
    (h3 : allDigits ds3 = true)
    (hr3 : readsAt s (p + ds1.length + 1 + ds2.length + 1 + (sgRender sg).length)
      ds3 = true)
    (hstop1 : isDigitC (nth s (p + ds1.length + 1 + ds2.length + 1 +
      (sgRender sg).length + ds3.length)) = false)
    (hstopS : ds3 = [] → sg = none →
      nth s (p + ds1.length + 1 + ds2.length + 1 +
        (sgRender sg).length + ds3.length) ≠ '+' ∧
      nth s (p + ds1.length + 1 + ds2.length + 1 +
        (sgRender sg).length + ds3.length) ≠ '-') :
    numLoop s (((((((g + 1) + ds3.length) + (sgRender sg).length) + 1) +
        ds2.length) + 1) + ds1.length) sp ⟨p, false⟩ initNumState =
      .ok ({ intState ds1 with
             decimalSeen := true
             part := .exponent
             fracPart := (fracGo 0 0 ds2).1
             fracDigits := (fracGo 0 0 ds2).2
             expSeen := true
             expSignSeen := sg.isSome
             expNegative := decide (sg = some '-')
             expPart := (expGo 0 true ds3).1
             expEmpty := (expGo 0 true ds3).2 },
        ⟨p + ds1.length + 1 + ds2.length + 1 + (sgRender sg).length + ds3.length + 1,
          atEnd s (p + ds1.length + 1 + ds2.length + 1 +
            (sgRender sg).length + ds3.length)⟩) := by
  rw [numLoop_int_entry ds1 h1 hlz hr1]
  rw [numLoop_dot_step rfl hdlt hdot]
  rw [numLoop_frac_run ds2 rfl h2 hr2]
  have hece' : isExpChar (nth s (p + ds1.length + 1 + ds2.length)) = true := by
    rw [hec]; exact hece
  rw [numLoop_efrac_step rfl helt hece']
  cases sg with
  | none =>
    simp only [sgRender_none, List.length_nil, Nat.add_zero] at hr3 hstop1 hstopS ⊢
    rw [numLoop_exp_run ds3 rfl h3 hr3]
    cases ds3 with
    | nil =>
      obtain ⟨hP, hM⟩ := hstopS (by trivial) (by trivial)
      exact numLoop_end_exp rfl hstop1 hP hM
    | cons d3 ds3' =>
      exact numLoop_end_exp_filled rfl (expGo_snd_cons d3 ds3' 0 true) hstop1
  | some sc =>
    obtain ⟨hsclt, hscc⟩ := hsglt sc rfl
    simp only [sgRender_some, List.length_singleton] at hr3 hstop1 hstopS ⊢
    rcases hsg sc rfl with rfl | rfl
    · rw [numLoop_plus_step rfl rfl rfl hsclt hscc]
      rw [numLoop_exp_run ds3 rfl h3 hr3]
      cases ds3 with
      | nil => exact numLoop_end_exp_signed rfl rfl hstop1
      | cons d3 ds3' =>
        exact numLoop_end_exp_filled rfl (expGo_snd_cons d3 ds3' 0 true) hstop1
    · rw [numLoop_minus_step rfl rfl rfl hsclt hscc]
      rw [numLoop_exp_run ds3 rfl h3 hr3]
      cases ds3 with
      | nil => exact numLoop_end_exp_signed rfl rfl hstop1
      | cons d3 ds3' =>
        exact numLoop_end_exp_filled rfl (expGo_snd_cons d3 ds3' 0 true) hstop1

/-- Entering `parse_number`: the minus sign, when present, is consumed
before the loop; the loop then starts right after it with a clear flag. -/
theorem parse_number_entry {s : List Char} {p : Nat} {b : Bool} {fuel : Nat}
    (neg : Bool) (hminus : neg = true → nth s p = '-')
    (hnominus : neg = false → nth s p ≠ '-') :
    parse_number s fuel ⟨p, b⟩ =
      numWrap p neg
        (numLoop s fuel p ⟨p + (if neg then 1 else 0), false⟩ initNumState) := by
  cases neg with
  | false =>
    simp only [parse_number]
    rw [show (nth s p == '-') = false by
      simpa using hnominus rfl]
    rw [if_neg Bool.false_ne_true, if_neg Bool.false_ne_true, Nat.add_zero]
    exact congrArg _ numLoop_flag
  | true =>
    simp only [parse_number]
    rw [show (nth s p == '-') = true by
      simp [hminus rfl]]
    rw [if_pos rfl]
    rw [show (if True then 1 else 0) = 1 from if_pos trivial]
    simp only [incC]
    exact congrArg _ numLoop_flag

/-- Structural invalidity of a token shape: empty integer part, a decimal
point with no following digit, or an exponent marker with no following
digit. -/
def numInvalid (ds1 : List Char) (fr : Option (List Char))
    (ex : Option (Char × Option Char × List Char)) : Bool :=
  ds1.isEmpty ||
    (match fr with | none => false | some ds2 => ds2.isEmpty) ||
    (match ex with | none => false | some (_, _, ds3) => ds3.isEmpty)

/-- Claim C2's anchoring half, for the whole of `parse_number`: every error
it raises is positioned at the number's start offset (the offset of its
first character, minus sign included), and is one of the two number
diagnostics. -/
theorem parse_number_err_anchor {s : List Char} {fuel : Nat} {cur : Cursor}
    {e : JsonParseError} (h : parse_number s fuel cur = .err e) :
    e.pos = some cur.pos ∧
      (e.msg = "Insignificant leading 0s disallowed." ∨
        e.msg = "Invalid number literal.") := by
  simp only [parse_number] at h
  cases hres : numLoop s fuel cur.pos
      (if (nth s cur.pos == '-') = true then incC s cur else cur) initNumState with
  | out => rw [hres] at h; simp [numWrap] at h
  | err e' =>
    rw [hres] at h
    simp only [numWrap] at h
    cases h
    have := numLoop_err hres
    subst this
    exact ⟨rfl, Or.inl rfl⟩
  | ok pr =>
    obtain ⟨st, cur1⟩ := pr
    rw [hres] at h
    simp only [numWrap] at h
    split at h
    · cases h
      exact ⟨rfl, Or.inr rfl⟩
    · simp at h

theorem numStop_nn {c : Char} (h : numStop none none c = true) :
    isDigitC c = false ∧ c ≠ '.' ∧ isExpChar c = false := by
  have e : numStop none none c =
      (!isDigitC c && decide (c ≠ '.') && !isExpChar c) := rfl
  rw [e] at h
  simp at h
  tauto

theorem numStop_fr {ds2 : List Char} {c : Char}
    (h : numStop (some ds2) none c = true) :
    isDigitC c = false ∧ isExpChar c = false := by
  have e : numStop (some ds2) none c = (!isDigitC c && !isExpChar c) := rfl
  rw [e] at h
  simp at h
  tauto

theorem numStop_ex {fr : Option (List Char)} {ec : Char} {sg : Option Char}
    {ds3 : List Char} {c : Char}
    (h : numStop fr (some (ec, sg, ds3)) c = true) :
    isDigitC c = false ∧ (ds3 = [] → sg = none → c ≠ '+' ∧ c ≠ '-') := by
  have e : numStop fr (some (ec, sg, ds3)) c =
      (if ds3.isEmpty && sg = none then !isDigitC c && c ≠ '+' && c ≠ '-'
       else !isDigitC c) := rfl
  rw [e] at h
  split at h
  · next hcond =>
    simp at h hcond
    obtain ⟨⟨hd, hp⟩, hm⟩ := h
    exact ⟨hd, fun _ _ => ⟨hp, hm⟩⟩
  · next hcond =>
    simp at h hcond
    refine ⟨h, fun h3 hsg => ?_⟩
    subst h3; subst hsg
    simp at hcond

theorem numWrap_intState (ds1 : List Char) (neg : Bool) (p q : Nat) (bb : Bool) :
    numWrap p neg (.ok (intState ds1, ⟨q + 1, bb⟩)) =
      if ds1.isEmpty = true then .err ⟨"Invalid number literal.", some p⟩
      else .ok (.num (numValSpec neg ds1 none none), ⟨q, false⟩) := by
  have hcond : ((intState ds1).intEmpty = true ∨
      ((intState ds1).decimalSeen = true ∧ (intState ds1).fracDigits = 0) ∨
      ((intState ds1).expSeen = true ∧ (intState ds1).expEmpty = true)) ↔
        ds1.isEmpty = true := by
    simp [intState, initNumState]
  by_cases hie : ds1.isEmpty = true
  · simp only [numWrap]
    rw [if_pos (hcond.mpr hie), if_pos hie]
  · simp only [numWrap]
    rw [if_neg (fun h => hie (hcond.mp h)), if_neg hie]
    rfl


theorem numWrap_fracState (ds1 ds2 : List Char) (neg : Bool) (p q : Nat) (bb : Bool) :
    numWrap p neg (.ok ({ intState ds1 with
        decimalSeen := true
        part := .fraction
        fracPart := (fracGo 0 0 ds2).1
        fracDigits := (fracGo 0 0 ds2).2 }, ⟨q + 1, bb⟩)) =
      if (ds1.isEmpty || ds2.isEmpty) = true then
        .err ⟨"Invalid number literal.", some p⟩
      else .ok (.num (numValSpec neg ds1 (some ds2) none), ⟨q, false⟩) := by
  simp only [numWrap]
  split
  · next hcnd =>
    have hor : (ds1.isEmpty || ds2.isEmpty) = true := by
      revert hcnd
      simp [intState, initNumState, fracGo_snd, List.isEmpty_iff_length_eq_zero]
    rw [if_pos hor]
  · next hcnd =>
    have hor : ¬(ds1.isEmpty || ds2.isEmpty) = true := by
      intro hor
      apply hcnd
      revert hor
      simp [intState, initNumState, fracGo_snd, List.isEmpty_iff_length_eq_zero]
    rw [if_neg hor]
    rfl

theorem numWrap_expState (ds1 : List Char) (ec : Char) (sg : Option Char)
    (ds3 : List Char) (neg : Bool) (p q : Nat) (bb : Bool) :
    numWrap p neg (.ok ({ intState ds1 with
        part := .exponent
        expSeen := true
        expSignSeen := sg.isSome
        expNegative := decide (sg = some '-')
        expPart := (expGo 0 true ds3).1
        expEmpty := (expGo 0 true ds3).2 }, ⟨q + 1, bb⟩)) =
      if (ds1.isEmpty || ds3.isEmpty) = true then
        .err ⟨"Invalid number literal.", some p⟩
      else .ok (.num (numValSpec neg ds1 none (some (ec, sg, ds3))), ⟨q, false⟩) := by
  have hE : ∀ b : Bool, ((expGo 0 true ds3).2 = b) ↔ (ds3.isEmpty = b) := by
    intro bb2
    cases ds3 with
    | nil => rw [expGo_nil]; simp
    | cons d3 ds3' => rw [expGo_snd_cons]; simp
  simp only [numWrap]
  split
  · next hcnd =>
    have hor : (ds1.isEmpty || ds3.isEmpty) = true := by
      revert hcnd
      simp [intState, initNumState, hE true]
    rw [if_pos hor]
  · next hcnd =>
    have hor : ¬(ds1.isEmpty || ds3.isEmpty) = true := by
      intro hor
      apply hcnd
      revert hor
      simp [intState, initNumState, hE true]
    rw [if_neg hor]
    cases sg with
    | none => rfl
    | some sc =>
      have hd : (decide ((some sc : Option Char) = some '-')) = decide (sc = '-') := by
        simp
      rw [hd]
      rfl

theorem numWrap_fracExpState (ds1 ds2 : List Char) (ec : Char) (sg : Option Char)
    (ds3 : List Char) (neg : Bool) (p q : Nat) (bb : Bool) :
    numWrap p neg (.ok ({ intState ds1 with
        decimalSeen := true
        part := .exponent
        fracPart := (fracGo 0 0 ds2).1
        fracDigits := (fracGo 0 0 ds2).2
        expSeen := true
        expSignSeen := sg.isSome
        expNegative := decide (sg = some '-')
        expPart := (expGo 0 true ds3).1
        expEmpty := (expGo 0 true ds3).2 }, ⟨q + 1, bb⟩)) =
      if (ds1.isEmpty || ds2.isEmpty || ds3.isEmpty) = true then
        .err ⟨"Invalid number literal.", some p⟩
      else .ok (.num (numValSpec neg ds1 (some ds2) (some (ec, sg, ds3))), ⟨q, false⟩) := by
  have hE : ((expGo 0 true ds3).2 = true) ↔ (ds3.isEmpty = true) := by
    cases ds3 with
    | nil => rw [expGo_nil]; simp
    | cons d3 ds3' => rw [expGo_snd_cons]; simp
  simp only [numWrap]
  split
  · next hcnd =>
    have hor : (ds1.isEmpty || ds2.isEmpty || ds3.isEmpty) = true := by
      revert hcnd
      simp [intState, initNumState, hE, fracGo_snd, List.isEmpty_iff_length_eq_zero]
      tauto
    rw [if_pos hor]
  · next hcnd =>
    have hor : ¬(ds1.isEmpty || ds2.isEmpty || ds3.isEmpty) = true := by
      intro hor
      apply hcnd
      revert hor
      simp [intState, initNumState, hE, fracGo_snd, List.isEmpty_iff_length_eq_zero]
      tauto
    rw [if_neg hor]
    cases sg with
    | none => rfl
    | some sc =>
      have hd : (decide ((some sc : Option Char) = some '-')) = decide (sc = '-') := by
        simp
      rw [hd]
      rfl

theorem parse_number_render {s : List Char} (neg : Bool) (ds1 : List Char)
    (fr : Option (List Char)) (ex : Option (Char × Option Char × List Char))
    {p g : Nat} {b : Bool}
    (h1 : allDigits ds1 = true) (hlz : lzOk ds1 = true)
    (hfr : ∀ ds2, fr = some ds2 → allDigits ds2 = true)
    (hex : ∀ ec sg ds3, ex = some (ec, sg, ds3) →
      isExpChar ec = true ∧ allDigits ds3 = true ∧
        ∀ sc, sg = some sc → sc = '+' ∨ sc = '-')
    (hne : numRender neg ds1 fr ex ≠ [])
    (hreads : readsAt s p (numRender neg ds1 fr ex) = true)
    (hstop : numStop fr ex (nth s (p + (numRender neg ds1 fr ex).length)) = true) :
    parse_number s ((numRender neg ds1 fr ex).length + 1 + g) ⟨p, b⟩ =
      if numInvalid ds1 fr ex = true then
        .err ⟨"Invalid number literal.", some p⟩
      else
        .ok (.num (numValSpec neg ds1 fr ex),
          ⟨p + (numRender neg ds1 fr ex).length, false⟩) := by
  cases fr with
  | none =>
    cases ex with
    | none =>
      have hR : numRender neg ds1 none none = (if neg then ['-'] else []) ++ ds1 := by
        simp [numRender, frRender_none, exRender_none]
      rw [hR] at hreads hstop hne ⊢
      have hInv : numInvalid ds1 none none = ds1.isEmpty := by
        have e : numInvalid ds1 none none = (ds1.isEmpty || false || false) := rfl
        rw [e]; simp
      rw [hInv]
      cases neg with
      | true =>
        rw [if_pos rfl] at hreads hstop ⊢
        rw [List.singleton_append] at hreads hstop ⊢
        obtain ⟨hm, hp, hr1⟩ := readsAt_cons.mp hreads
        rw [parse_number_entry true (fun _ => hm) (fun h => nomatch h)]
        rw [show p + (if (true : Bool) = true then 1 else 0) = p + 1 from rfl]
        simp only [List.length_cons] at hstop ⊢
        rw [show ds1.length + 1 + 1 + g = ((g + 1) + 1) + ds1.length from by omega]
        rw [show p + (ds1.length + 1) = p + 1 + ds1.length from by omega] at hstop
        obtain ⟨hs1, hs2, hs3⟩ := numStop_nn hstop
        rw [numBody_int ds1 h1 hlz hr1 hs1 hs2 hs3]
        rw [numWrap_intState]
        rw [show p + 1 + ds1.length = p + (ds1.length + 1) from by omega]
      | false =>
        rw [if_neg Bool.false_ne_true] at hreads hstop ⊢
        simp only [List.nil_append] at hreads hstop hne ⊢
        cases ds1 with
        | nil => exact absurd (by simp) hne
        | cons d ds1' =>
          obtain ⟨hm, hp, hr1'⟩ := readsAt_cons.mp hreads
          have hd : isDigitC d = true := by
            simp [allDigits] at h1; exact h1.1
          have hmn : nth s p ≠ '-' := by
            rw [hm]; rintro rfl; simp [isDigitC] at hd
          rw [parse_number_entry false (fun h => nomatch h) (fun _ => hmn)]
          rw [show p + (if (false : Bool) = true then 1 else 0) = p from rfl]
          rw [show (d :: ds1').length + 1 + g = (g + 1) + (d :: ds1').length from by omega]
          obtain ⟨hs1, hs2, hs3⟩ := numStop_nn hstop
          rw [numBody_int (d :: ds1') h1 hlz hreads hs1 hs2 hs3]
          rw [numWrap_intState]
    | some exv =>
      obtain ⟨ec, sg, ds3⟩ := exv
      obtain ⟨hece, h3, hsg⟩ := hex ec sg ds3 rfl
      have hR : numRender neg ds1 none (some (ec, sg, ds3)) =
          (if neg then ['-'] else []) ++ (ds1 ++ (ec :: (sgRender sg ++ ds3))) := by
        simp [numRender, frRender_none, exRender_some]
      rw [hR] at hreads hstop ⊢
      have hInv : numInvalid ds1 none (some (ec, sg, ds3)) =
          (ds1.isEmpty || ds3.isEmpty) := by
        have e : numInvalid ds1 none (some (ec, sg, ds3)) =
            (ds1.isEmpty || false || ds3.isEmpty) := rfl
        rw [e]; simp
      rw [hInv]
      cases neg with
      | true =>
        rw [if_pos rfl] at hreads hstop ⊢
        rw [List.singleton_append] at hreads hstop ⊢
        obtain ⟨hm, hp, hrest⟩ := readsAt_cons.mp hreads
        obtain ⟨hr1, hexx⟩ := readsAt_append.mp hrest
        obtain ⟨hec', helt, hrest2⟩ := readsAt_cons.mp hexx
        obtain ⟨hsgr, hr3⟩ := readsAt_append.mp hrest2
        have hsglt : ∀ sc, sg = some sc →
            p + 1 + ds1.length + 1 < s.length ∧
              nth s (p + 1 + ds1.length + 1) = sc := by
          intro sc hsc
          have hsgr' := hsgr
          rw [hsc, sgRender_some] at hsgr'
          obtain ⟨ha, hb, _⟩ := readsAt_cons.mp hsgr'
          exact ⟨hb, ha⟩
        rw [parse_number_entry true (fun _ => hm) (fun h => nomatch h)]
        rw [show p + (if (true : Bool) = true then 1 else 0) = p + 1 from rfl]
        simp only [List.length_cons, List.length_append] at hstop ⊢
        rw [show ds1.length + ((sgRender sg).length + ds3.length + 1) + 1 + 1 + g =
          ((((((g + 1) + 1) + ds3.length) + (sgRender sg).length) + 1) + ds1.length)
          from by omega]
        rw [show p + (ds1.length + ((sgRender sg).length + ds3.length + 1) + 1) =
          p + 1 + ds1.length + 1 + (sgRender sg).length + ds3.length from by omega] at hstop
        obtain ⟨hs1, hsS⟩ := numStop_ex hstop
        rw [numBody_exp ds1 sg ds3 h1 hlz hr1 helt hec' hece hsg hsglt h3 hr3 hs1 hsS]
        rw [numWrap_expState]
        rw [show p + 1 + ds1.length + 1 + (sgRender sg).length + ds3.length =
          p + (ds1.length + ((sgRender sg).length + ds3.length + 1) + 1) from by omega]
      | false =>
        rw [if_neg Bool.false_ne_true] at hreads hstop ⊢
        simp only [List.nil_append] at hreads hstop ⊢
        obtain ⟨hr1, hexx⟩ := readsAt_append.mp hreads
        obtain ⟨hec', helt, hrest2⟩ := readsAt_cons.mp hexx
        obtain ⟨hsgr, hr3⟩ := readsAt_append.mp hrest2
        have hsglt : ∀ sc, sg = some sc →
            p + ds1.length + 1 < s.length ∧
              nth s (p + ds1.length + 1) = sc := by
          intro sc hsc
          have hsgr' := hsgr
          rw [hsc, sgRender_some] at hsgr'
          obtain ⟨ha, hb, _⟩ := readsAt_cons.mp hsgr'
          exact ⟨hb, ha⟩
        have hmn : nth s p ≠ '-' := by
          cases ds1 with
          | nil =>
            simp only [List.length_nil, Nat.add_zero] at hec'
            rw [hec']
            rcases exp_char_cases hece with rfl | rfl <;> decide
          | cons d ds1' =>
            obtain ⟨hm, _, _⟩ := readsAt_cons.mp hr1
            have hd : isDigitC d = true := by
              simp [allDigits] at h1; exact h1.1
            rw [hm]; rintro rfl; simp [isDigitC] at hd
        rw [parse_number_entry false (fun h => nomatch h) (fun _ => hmn)]
        rw [show p + (if (false : Bool) = true then 1 else 0) = p from rfl]
        simp only [List.length_cons, List.length_append] at hstop ⊢
        rw [show ds1.length + ((sgRender sg).length + ds3.length + 1) + 1 + g =
          (((((g + 1) + ds3.length) + (sgRender sg).length) + 1) + ds1.length)
          from by omega]
        rw [show p + (ds1.length + ((sgRender sg).length + ds3.length + 1)) =
          p + ds1.length + 1 + (sgRender sg).length + ds3.length from by omega] at hstop
        obtain ⟨hs1, hsS⟩ := numStop_ex hstop
        rw [numBody_exp ds1 sg ds3 h1 hlz hr1 helt hec' hece hsg hsglt h3 hr3 hs1 hsS]
        rw [numWrap_expState]
        rw [show p + ds1.length + 1 + (sgRender sg).length + ds3.length =
          p + (ds1.length + ((sgRender sg).length + ds3.length + 1)) from by omega]
  | some ds2 =>
    cases ex with
    | none =>
      have h2 : allDigits ds2 = true := hfr ds2 rfl
      have hR : numRender neg ds1 (some ds2) none =
          (if neg then ['-'] else []) ++ (ds1 ++ ('.' :: ds2)) := by
        simp [numRender, frRender_some, exRender_none]
      rw [hR] at hreads hstop ⊢
      have hInv : numInvalid ds1 (some ds2) none = (ds1.isEmpty || ds2.isEmpty) := by
        have e : numInvalid ds1 (some ds2) none =
            (ds1.isEmpty || ds2.isEmpty || false) := rfl
        rw [e]; simp
      rw [hInv]
      cases neg with
      | true =>
        rw [if_pos rfl] at hreads hstop ⊢
        rw [List.singleton_append] at hreads hstop ⊢
        obtain ⟨hm, hp, hrest⟩ := readsAt_cons.mp hreads
        obtain ⟨hr1, hfx⟩ := readsAt_append.mp hrest
        obtain ⟨hdot, hdlt, hr2⟩ := readsAt_cons.mp hfx
        rw [parse_number_entry true (fun _ => hm) (fun h => nomatch h)]
        rw [show p + (if (true : Bool) = true then 1 else 0) = p + 1 from rfl]
        simp only [List.length_cons, List.length_append] at hstop ⊢
        rw [show ds1.length + (ds2.length + 1) + 1 + 1 + g =
          ((((g + 1) + 1) + ds2.length) + 1) + ds1.length from by omega]
        rw [show p + (ds1.length + (ds2.length + 1) + 1) =
          p + 1 + ds1.length + 1 + ds2.length from by omega] at hstop
        obtain ⟨hs1, hs3⟩ := numStop_fr hstop
        rw [numBody_frac ds1 ds2 h1 hlz hr1 hdlt hdot h2 hr2 hs1 hs3]
        rw [numWrap_fracState]
        rw [show p + 1 + ds1.length + 1 + ds2.length =
          p + (ds1.length + (ds2.length + 1) + 1) from by omega]
      | false =>
        rw [if_neg Bool.false_ne_true] at hreads hstop ⊢
        simp only [List.nil_append] at hreads hstop ⊢
        obtain ⟨hr1, hfx⟩ := readsAt_append.mp hreads
        obtain ⟨hdot, hdlt, hr2⟩ := readsAt_cons.mp hfx
        have hmn : nth s p ≠ '-' := by
          cases ds1 with
          | nil =>
            simp only [List.length_nil, Nat.add_zero] at hdot
            rw [hdot]
            decide
          | cons d ds1' =>
            obtain ⟨hm, _, _⟩ := readsAt_cons.mp hr1
            have hd : isDigitC d = true := by
              simp [allDigits] at h1; exact h1.1
            rw [hm]; rintro rfl; simp [isDigitC] at hd
        rw [parse_number_entry false (fun h => nomatch h) (fun _ => hmn)]
        rw [show p + (if (false : Bool) = true then 1 else 0) = p from rfl]
        simp only [List.length_cons, List.length_append] at hstop ⊢
        rw [show ds1.length + (ds2.length + 1) + 1 + g =
          ((((g + 1)) + ds2.length) + 1) + ds1.length from by omega]
        rw [show p + (ds1.length + (ds2.length + 1)) =
          p + ds1.length + 1 + ds2.length from by omega] at hstop
        obtain ⟨hs1, hs3⟩ := numStop_fr hstop
        rw [numBody_frac ds1 ds2 h1 hlz hr1 hdlt hdot h2 hr2 hs1 hs3]
        rw [numWrap_fracState]
        rw [show p + ds1.length + 1 + ds2.length =
          p + (ds1.length + (ds2.length + 1)) from by omega]
    | some exv =>
      obtain ⟨ec, sg, ds3⟩ := exv
      have h2 : allDigits ds2 = true := hfr ds2 rfl
      obtain ⟨hece, h3, hsg⟩ := hex ec sg ds3 rfl
      have hR : numRender neg ds1 (some ds2) (some (ec, sg, ds3)) =
          (if neg then ['-'] else []) ++
            (ds1 ++ ('.' :: (ds2 ++ (ec :: (sgRender sg ++ ds3))))) := by
        simp [numRender, frRender_some, exRender_some]
      rw [hR] at hreads hstop ⊢
      have hInv : numInvalid ds1 (some ds2) (some (ec, sg, ds3)) =
          (ds1.isEmpty || ds2.isEmpty || ds3.isEmpty) := rfl
      rw [hInv]
      cases neg with
      | true =>
        rw [if_pos rfl] at hreads hstop ⊢
        rw [List.singleton_append] at hreads hstop ⊢
        obtain ⟨hm, hp, hrest⟩ := readsAt_cons.mp hreads
        obtain ⟨hr1, hfx⟩ := readsAt_append.mp hrest
        obtain ⟨hdot, hdlt, hrest2⟩ := readsAt_cons.mp hfx
        obtain ⟨hr2, hexx⟩ := readsAt_append.mp hrest2
        obtain ⟨hec', helt, hrest3⟩ := readsAt_cons.mp hexx
        obtain ⟨hsgr, hr3⟩ := readsAt_append.mp hrest3
        have hsglt : ∀ sc, sg = some sc →
            p + 1 + ds1.length + 1 + ds2.length + 1 < s.length ∧
              nth s (p + 1 + ds1.length + 1 + ds2.length + 1) = sc := by
          intro sc hsc
          have hsgr' := hsgr
          rw [hsc, sgRender_some] at hsgr'
          obtain ⟨ha, hb, _⟩ := readsAt_cons.mp hsgr'
          exact ⟨hb, ha⟩
        rw [parse_number_entry true (fun _ => hm) (fun h => nomatch h)]
        rw [show p + (if (true : Bool) = true then 1 else 0) = p + 1 from rfl]
        simp only [List.length_cons, List.length_append] at hstop ⊢
        rw [show ds1.length + (ds2.length + ((sgRender sg).length + ds3.length + 1) + 1)
              + 1 + 1 + g =
          (((((((g + 1) + 1) + ds3.length) + (sgRender sg).length) + 1) +
            ds2.length) + 1) + ds1.length from by omega]
        rw [show p + (ds1.length + (ds2.length + ((sgRender sg).length + ds3.length + 1)
              + 1) + 1) =
          p + 1 + ds1.length + 1 + ds2.length + 1 + (sgRender sg).length + ds3.length
          from by omega] at hstop
        obtain ⟨hs1, hsS⟩ := numStop_ex hstop
        rw [numBody_frac_exp ds1 ds2 sg ds3 h1 hlz hr1 hdlt hdot h2 hr2 helt hec' hece
          hsg hsglt h3 hr3 hs1 hsS]
        rw [numWrap_fracExpState]
        rw [show p + 1 + ds1.length + 1 + ds2.length + 1 + (sgRender sg).length
              + ds3.length =
          p + (ds1.length + (ds2.length + ((sgRender sg).length + ds3.length + 1) + 1) + 1)
          from by omega]
      | false =>
        rw [if_neg Bool.false_ne_true] at hreads hstop ⊢
        simp only [List.nil_append] at hreads hstop ⊢
        obtain ⟨hr1, hfx⟩ := readsAt_append.mp hreads
        obtain ⟨hdot, hdlt, hrest2⟩ := readsAt_cons.mp hfx
        obtain ⟨hr2, hexx⟩ := readsAt_append.mp hrest2
        obtain ⟨hec', helt, hrest3⟩ := readsAt_cons.mp hexx
        obtain ⟨hsgr, hr3⟩ := readsAt_append.mp hrest3
        have hsglt : ∀ sc, sg = some sc →
            p + ds1.length + 1 + ds2.length + 1 < s.length ∧
              nth s (p + ds1.length + 1 + ds2.length + 1) = sc := by
          intro sc hsc
          have hsgr' := hsgr
          rw [hsc, sgRender_some] at hsgr'
          obtain ⟨ha, hb, _⟩ := readsAt_cons.mp hsgr'
          exact ⟨hb, ha⟩
        have hmn : nth s p ≠ '-' := by
          cases ds1 with
          | nil =>
            simp only [List.length_nil, Nat.add_zero] at hdot
            rw [hdot]
            decide
          | cons d ds1' =>
            obtain ⟨hm, _, _⟩ := readsAt_cons.mp hr1
            have hd : isDigitC d = true := by
              simp [allDigits] at h1; exact h1.1
            rw [hm]; rintro rfl; simp [isDigitC] at hd
        rw [parse_number_entry false (fun h => nomatch h) (fun _ => hmn)]
        rw [show p + (if (false : Bool) = true then 1 else 0) = p from rfl]
        simp only [List.length_cons, List.length_append] at hstop ⊢
        rw [show ds1.length + (ds2.length + ((sgRender sg).length + ds3.length + 1) + 1)
              + 1 + g =
          ((((((g + 1) + ds3.length) + (sgRender sg).length) + 1) +
            ds2.length) + 1) + ds1.length from by omega]
        rw [show p + (ds1.length + (ds2.length + ((sgRender sg).length + ds3.length + 1)
              + 1)) =
          p + ds1.length + 1 + ds2.length + 1 + (sgRender sg).length + ds3.length
          from by omega] at hstop
        obtain ⟨hs1, hsS⟩ := numStop_ex hstop
        rw [numBody_frac_exp ds1 ds2 sg ds3 h1 hlz hr1 hdlt hdot h2 hr2 helt hec' hece
          hsg hsglt h3 hr3 hs1 hsS]
        rw [numWrap_fracExpState]
        rw [show p + ds1.length + 1 + ds2.length + 1 + (sgRender sg).length + ds3.length =
          p + (ds1.length + (ds2.length + ((sgRender sg).length + ds3.length + 1) + 1))
          from by omega]

/-- Reading a digit in the integer phase with a recorded leading zero and a
nonempty integer part raises the leading-zero error at the start offset. -/
theorem numLoop_lz_throw {s : List Char} {sp fuel q : Nat} {b : Bool}
    {st : NumState} (hpt : st.part = .integer) (hlz : st.leadingZero = true)
    (hie : st.intEmpty = false) (hq : q < s.length)
    (hd : isDigitC (nth s q) = true) :
    numLoop s (fuel + 1) sp ⟨q, b⟩ st =
      .err ⟨"Insignificant leading 0s disallowed.", some sp⟩ := by
  have hnd : nth s q ≠ '.' := by
    intro h; rw [h] at hd; simp [isDigitC] at hd
  simp only [numLoop]
  simp [getC, atEnd_false hq, hpt, hlz, hie, hd, hnd]

/-- Claim C2: for every structurally invalid number token — a second digit
immediately after a leading 0, an empty integer part, a decimal point not
followed by a digit, or an exponent marker not followed by a digit
(optionally after a sign) — `parse_number` raises a fatal error whose
reported position is the number's start offset (the offset of its first
character, minus sign included), not the offset of the offending or
terminating character. Stated as: (1) every `parse_number` error is anchored
at the start offset and is one of the two number diagnostics; (2) a leading
`0` followed by a digit errors at the start offset; (3) every token shape
whose integer part is empty, whose decimal point is followed by no digit, or
whose exponent marker is followed by no digit, errors at the start offset. -/
theorem c2_invalid_number_anchored_at_start :
    (∀ (s : List Char) (fuel : Nat) (cur : Cursor) (e : JsonParseError),
        parse_number s fuel cur = .err e →
        e.pos = some cur.pos ∧
          (e.msg = "Insignificant leading 0s disallowed." ∨
            e.msg = "Invalid number literal.")) ∧
    (∀ (s : List Char) (p g : Nat) (b neg : Bool) (d : Char) (rest : List Char),
        isDigitC d = true →
        readsAt s p ((if neg then ['-'] else []) ++ '0' :: d :: rest) = true →
        parse_number s (g + 2) ⟨p, b⟩ =
          .err ⟨"Insignificant leading 0s disallowed.", some p⟩) ∧
    (∀ (s : List Char) (p g : Nat) (b neg : Bool) (ds1 : List Char)
        (fr : Option (List Char)) (ex : Option (Char × Option Char × List Char)),
        allDigits ds1 = true → lzOk ds1 = true →
        (∀ ds2, fr = some ds2 → allDigits ds2 = true) →
        (∀ ec sg ds3, ex = some (ec, sg, ds3) →
          isExpChar ec = true ∧ allDigits ds3 = true ∧
            ∀ sc, sg = some sc → sc = '+' ∨ sc = '-') →
        numRender neg ds1 fr ex ≠ [] →
        readsAt s p (numRender neg ds1 fr ex) = true →
        numStop fr ex (nth s (p + (numRender neg ds1 fr ex).length)) = true →
        numInvalid ds1 fr ex = true →
        parse_number s ((numRender neg ds1 fr ex).length + 1 + g) ⟨p, b⟩ =
          .err ⟨"Invalid number literal.", some p⟩) := by
  refine ⟨fun s fuel cur e h => parse_number_err_anchor h, ?_, ?_⟩
  · intro s p g b neg d rest hdig hreads
    cases neg with
    | true =>
      rw [if_pos rfl, List.singleton_append] at hreads
      obtain ⟨hm, hp, hrest⟩ := readsAt_cons.mp hreads
      obtain ⟨h0, h0lt, hrest2⟩ := readsAt_cons.mp hrest
      obtain ⟨hd2, hdlt, _⟩ := readsAt_cons.mp hrest2
      rw [parse_number_entry true (fun _ => hm) (fun h => nomatch h)]
      rw [show p + (if (true : Bool) = true then 1 else 0) = p + 1 from rfl]
      rw [show g + 2 = (g + 1) + (['0'] : List Char).length from by simp]
      rw [numLoop_int_entry ['0'] (by decide) (by decide)
        (readsAt_cons.mpr ⟨h0, h0lt, rfl⟩)]
      have hthrow : numLoop s (g + 1) p
          ⟨p + 1 + (['0'] : List Char).length, false⟩ (intState ['0']) =
            .err ⟨"Insignificant leading 0s disallowed.", some p⟩ := by
        refine numLoop_lz_throw ?_ ?_ ?_ ?_ ?_
        · rfl
        · rfl
        · rfl
        · exact hdlt
        · exact (by rw [hd2]; exact hdig :
            isDigitC (nth s (p + 1 + 1)) = true)
      rw [hthrow]
      rfl
    | false =>
      rw [if_neg Bool.false_ne_true, List.nil_append] at hreads
      obtain ⟨h0, h0lt, hrest2⟩ := readsAt_cons.mp hreads
      obtain ⟨hd2, hdlt, _⟩ := readsAt_cons.mp hrest2
      have hmn : nth s p ≠ '-' := by rw [h0]; decide
      rw [parse_number_entry false (fun h => nomatch h) (fun _ => hmn)]
      rw [show p + (if (false : Bool) = true then 1 else 0) = p from rfl]
      rw [show g + 2 = (g + 1) + (['0'] : List Char).length from by simp]
      rw [numLoop_int_entry ['0'] (by decide) (by decide)
        (readsAt_cons.mpr ⟨h0, h0lt, rfl⟩)]
      have hthrow : numLoop s (g + 1) p
          ⟨p + (['0'] : List Char).length, false⟩ (intState ['0']) =
            .err ⟨"Insignificant leading 0s disallowed.", some p⟩ := by
        refine numLoop_lz_throw ?_ ?_ ?_ ?_ ?_
        · rfl
        · rfl
        · rfl
        · exact hdlt
        · exact (by rw [hd2]; exact hdig :
            isDigitC (nth s (p + 1)) = true)
      rw [hthrow]
      rfl
  · intro s p g b neg ds1 fr ex h1 hlz hfr hex hneR hreads hstop hinv
    rw [parse_number_render neg ds1 fr ex h1 hlz hfr hex hneR hreads hstop]
    rw [if_pos hinv]

/-- Claim C7: for every well-formed numeric literal, the returned `Number`
equals `(integer_accumulator + fractional_accumulator) * 10 ^ (exponent with
its recorded sign)`, negated exactly once if a leading minus sign was
present — where the integer accumulator is built as `value = value*10 +
digit` (`intAcc`) and the `n`-th fractional digit contributes
`digit * 10^-n` (`fracGo`) — and `"-0"` parses without error and is
numerically equal to `0`. -/
theorem c7_number_value_formula :
    (∀ (s : List Char) (p g : Nat) (b neg : Bool) (ds1 : List Char)
        (fr : Option (List Char)) (ex : Option (Char × Option Char × List Char)),
        allDigits ds1 = true → lzOk ds1 = true → ds1 ≠ [] →
        (∀ ds2, fr = some ds2 → allDigits ds2 = true ∧ ds2 ≠ []) →
        (∀ ec sg ds3, ex = some (ec, sg, ds3) →
          isExpChar ec = true ∧ allDigits ds3 = true ∧ ds3 ≠ [] ∧
            ∀ sc, sg = some sc → sc = '+' ∨ sc = '-') →
        readsAt s p (numRender neg ds1 fr ex) = true →
        numStop fr ex (nth s (p + (numRender neg ds1 fr ex).length)) = true →
        parse_number s ((numRender neg ds1 fr ex).length + 1 + g) ⟨p, b⟩ =
          .ok (.num (numValSpec neg ds1 fr ex),
            ⟨p + (numRender neg ds1 fr ex).length, false⟩)) ∧
    parse_json "-0".data = .ok (.num 0) := by
  have hu : ∀ (s : List Char) (p g : Nat) (b neg : Bool) (ds1 : List Char)
      (fr : Option (List Char)) (ex : Option (Char × Option Char × List Char)),
      allDigits ds1 = true → lzOk ds1 = true → ds1 ≠ [] →
      (∀ ds2, fr = some ds2 → allDigits ds2 = true ∧ ds2 ≠ []) →
      (∀ ec sg ds3, ex = some (ec, sg, ds3) →
        isExpChar ec = true ∧ allDigits ds3 = true ∧ ds3 ≠ [] ∧
          ∀ sc, sg = some sc → sc = '+' ∨ sc = '-') →
      readsAt s p (numRender neg ds1 fr ex) = true →
      numStop fr ex (nth s (p + (numRender neg ds1 fr ex).length)) = true →
      parse_number s ((numRender neg ds1 fr ex).length + 1 + g) ⟨p, b⟩ =
        .ok (.num (numValSpec neg ds1 fr ex),
          ⟨p + (numRender neg ds1 fr ex).length, false⟩) := by
    intro s p g b neg ds1 fr ex h1 hlz hne1 hfr hex hreads hstop
    have hfr' : ∀ ds2, fr = some ds2 → allDigits ds2 = true :=
      fun ds2 h => (hfr ds2 h).1
    have hex' : ∀ ec sg ds3, ex = some (ec, sg, ds3) →
        isExpChar ec = true ∧ allDigits ds3 = true ∧
          ∀ sc, sg = some sc → sc = '+' ∨ sc = '-' := by
      intro ec sg ds3 h
      obtain ⟨a, b2, _, d2⟩ := hex ec sg ds3 h
      exact ⟨a, b2, d2⟩
    have hneR : numRender neg ds1 fr ex ≠ [] := by
      cases ds1 with
      | nil => exact absurd rfl hne1
      | cons dd ds1' => simp [numRender]
    rw [parse_number_render neg ds1 fr ex h1 hlz hfr' hex' hneR hreads hstop]
    have h1e : ds1.isEmpty = false := by
      cases ds1 with
      | nil => exact absurd rfl hne1
      | cons _ _ => rfl
    have hinv : numInvalid ds1 fr ex = false := by
      rcases fr with _ | ds2 <;> rcases ex with _ | ⟨ec, sg, ds3⟩
      · have e : numInvalid ds1 none none = (ds1.isEmpty || false || false) := rfl
        rw [e, h1e]; rfl
      · have e : numInvalid ds1 none (some (ec, sg, ds3)) =
            (ds1.isEmpty || false || ds3.isEmpty) := rfl
        obtain ⟨_, _, h3ne, _⟩ := hex ec sg ds3 rfl
        have h3e : ds3.isEmpty = false := by
          cases ds3 with
          | nil => exact absurd rfl h3ne
          | cons _ _ => rfl
        rw [e, h1e, h3e]; rfl
      · have e : numInvalid ds1 (some ds2) none =
            (ds1.isEmpty || ds2.isEmpty || false) := rfl
        obtain ⟨_, h2ne⟩ := hfr ds2 rfl
        have h2e : ds2.isEmpty = false := by
          cases ds2 with
          | nil => exact absurd rfl h2ne
          | cons _ _ => rfl
        rw [e, h1e, h2e]; rfl
      · have e : numInvalid ds1 (some ds2) (some (ec, sg, ds3)) =
            (ds1.isEmpty || ds2.isEmpty || ds3.isEmpty) := rfl
        obtain ⟨_, h2ne⟩ := hfr ds2 rfl
        obtain ⟨_, _, h3ne, _⟩ := hex ec sg ds3 rfl
        have h2e : ds2.isEmpty = false := by
          cases ds2 with
          | nil => exact absurd rfl h2ne
          | cons _ _ => rfl
        have h3e : ds3.isEmpty = false := by
          cases ds3 with
          | nil => exact absurd rfl h3ne
          | cons _ _ => rfl
        rw [e, h1e, h2e, h3e]; rfl
    rw [hinv, if_neg Bool.false_ne_true]
  refine ⟨hu, ?_⟩
  have e1 : parse_json "-0".data = .ok (.num (numValSpec true ['0'] none none)) := rfl
  refine num_val_eq e1 ?_
  have hd0 : digitVal '0' = 0 := rfl
  simp [numValSpec, intAcc, hd0]

/-- Claim C8: in the exponent phase, at most one sign is accepted and only
before the first exponent digit: once a sign has been seen or a digit has
been accumulated, a `+` or `-` is never consumed as part of the exponent
(the loop ends, handing the character back); and `"1.05e+-2"` is rejected as
an invalid number anchored at offset 0 rather than parsed with both signs. -/
theorem c8_exponent_sign_once :
    (∀ (s : List Char) (sp fuel q : Nat) (b : Bool) (st : NumState),
        st.part = .exponent →
        (st.expSignSeen = true ∨ st.expEmpty = false) →
        (nth s q = '+' ∨ nth s q = '-') →
        numLoop s (fuel + 1) sp ⟨q, b⟩ st = .ok (st, ⟨q + 1, atEnd s q⟩)) ∧
    parse_json "1.05e+-2".data = .err ⟨"Invalid number literal.", some 0⟩ := by
  refine ⟨?_, rfl⟩
  intro s sp fuel q b st hpt hseen hc
  have hnd : isDigitC (nth s q) = false := by
    rcases hc with h | h <;> rw [h] <;> rfl
  rcases hseen with hss | hee
  · exact numLoop_end_exp_signed hpt hss hnd
  · exact numLoop_end_exp_filled hpt hee hnd

theorem c2_invalid_number_anchored_at_start_witness :
    ((JsonParseError.mk "Invalid number literal." (some 0)).pos = some 0 ∧
      ((JsonParseError.mk "Invalid number literal." (some 0)).msg =
          "Insignificant leading 0s disallowed." ∨
        (JsonParseError.mk "Invalid number literal." (some 0)).msg =
          "Invalid number literal.")) ∧
    parse_number "01".data 5 ⟨0, false⟩ =
      .err ⟨"Insignificant leading 0s disallowed.", some 0⟩ ∧
    parse_number "3.]".data 10 ⟨0, false⟩ =
      .err ⟨"Invalid number literal.", some 0⟩ := by
  refine ⟨?_, ?_, ?_⟩
  · exact c2_invalid_number_anchored_at_start.1 "3.]".data 10 ⟨0, false⟩ _ rfl
  · exact c2_invalid_number_anchored_at_start.2.1 "01".data 0 3 false false '1' []
      (by decide) (by decide)
  · exact c2_invalid_number_anchored_at_start.2.2 "3.]".data 0 7 false false
      ['3'] (some []) none (by decide) (by decide)
      (fun ds2 h => by cases h; decide) (fun ec sg ds3 h => nomatch h)
      (by decide) (by decide) (by decide) (by decide)

theorem c7_number_value_formula_witness :
    parse_number "-12.5e-3,".data 9 ⟨0, false⟩ =
      .ok (.num (numValSpec true ['1', '2'] (some ['5'])
        (some ('e', some '-', ['3']))), ⟨8, false⟩) := by
  exact c7_number_value_formula.1 "-12.5e-3,".data 0 0 false true
    ['1', '2'] (some ['5']) (some ('e', some '-', ['3']))
    (by decide) (by decide) (by decide)
    (fun ds2 h => by cases h; exact ⟨by decide, by decide⟩)
    (fun ec sg ds3 h => by
      cases h
      exact ⟨by decide, by decide, by decide,
        fun sc hsc => by cases hsc; exact Or.inr rfl⟩)
    (by decide) (by decide)

theorem c8_exponent_sign_once_witness :
    numLoop "+2".data 4 0 ⟨0, false⟩
      ⟨0, 0, 0, 0, .exponent, false, false, true, true, true, true, false⟩ =
      .ok (⟨0, 0, 0, 0, .exponent, false, false, true, true, true, true, false⟩,
        ⟨1, false⟩) := by
  exact c8_exponent_sign_once.1 "+2".data 0 3 0 false
    ⟨0, 0, 0, 0, .exponent, false, false, true, true, true, true, false⟩
    rfl (Or.inl rfl) (Or.inl rfl)

/-! ### `parse_string` step lemmas -/

/-- A closing quote in the `normal` state ends the string. -/
theorem strLoop_normal_quote {s : List Char} {fuel p : Nat} {b : Bool}
    {result : List Char} {cp n : Nat} (hp : p < s.length)
    (hc : nth s p = '"') :
    strLoop s (fuel + 1) ⟨p, b⟩ result cp n .normal = .ok (result, ⟨p + 1, false⟩) := by
  simp only [strLoop]
  simp [getC, hc, atEnd_false hp]

/-- A backslash in the `normal` state enters the `escape` state. -/
theorem strLoop_normal_backslash {s : List Char} {fuel p : Nat} {b : Bool}
    {result : List Char} {cp n : Nat} (hp : p < s.length)
    (hc : nth s p = '\\') :
    strLoop s (fuel + 1) ⟨p, b⟩ result cp n .normal =
      strLoop s fuel ⟨p + 1, false⟩ result cp n .escape := by
  simp only [strLoop]
  simp [getC, hc, atEnd_false hp]

/-- Any other character in the `normal` state is appended. -/
theorem strLoop_normal_char {s : List Char} {fuel p : Nat} {b : Bool}
    {result : List Char} {cp n : Nat} (hp : p < s.length)
    (hq : nth s p ≠ '"') (hb : nth s p ≠ '\\') :
    strLoop s (fuel + 1) ⟨p, b⟩ result cp n .normal =
      strLoop s fuel ⟨p + 1, false⟩ (result ++ [nth s p]) cp n .normal := by
  simp only [strLoop]
  simp [getC, hq, hb, atEnd_false hp]

/-- A table escape character is decoded and appended. -/
theorem strLoop_escape_char {s : List Char} {fuel p : Nat} {b : Bool}
    {result : List Char} {cp n : Nat} {ec : Char} (hp : p < s.length)
    (hc : escapeCharOf (nth s p) = some ec) :
    strLoop s (fuel + 1) ⟨p, b⟩ result cp n .escape =
      strLoop s fuel ⟨p + 1, false⟩ (result ++ [ec]) cp n .normal := by
  simp only [strLoop]
  simp [getC, hc, atEnd_false hp]

/-- `u` after a backslash enters the `unicode_escape` state. -/
theorem strLoop_escape_u {s : List Char} {fuel p : Nat} {b : Bool}
    {result : List Char} {cp n : Nat} (hp : p < s.length)
    (hc : nth s p = 'u') :
    strLoop s (fuel + 1) ⟨p, b⟩ result cp n .escape =
      strLoop s fuel ⟨p + 1, false⟩ result cp n .unicode_escape := by
  have hn : escapeCharOf (nth s p) = none := by rw [hc]; rfl
  simp only [strLoop]
  simp [getC, hn, hc, atEnd_false hp]
  rfl

/-- Any other character after a backslash is a fatal invalid escape,
anchored at that character. -/
theorem strLoop_escape_bad {s : List Char} {fuel p : Nat} {b : Bool}
    {result : List Char} {cp n : Nat} (hp : p < s.length)
    (hn : escapeCharOf (nth s p) = none) (hu : nth s p ≠ 'u') :
    strLoop s (fuel + 1) ⟨p, b⟩ result cp n .escape =
      .err ⟨"Invalid escape character.", some p⟩ := by
  simp only [strLoop]
  simp [getC, hn, hu, atEnd_false hp]

/-- A hex digit (not yet the fourth) is accumulated into the code point. -/
theorem strLoop_hex_step {s : List Char} {fuel p : Nat} {b : Bool}
    {result : List Char} {cp n : Nat} (hp : p < s.length)
    (hx : isHexDigitC (nth s p) = true) (hn : n + 1 ≠ 4) :
    strLoop s (fuel + 1) ⟨p, b⟩ result cp n .unicode_escape =
      strLoop s fuel ⟨p + 1, false⟩ result (cp * 16 + hexVal (nth s p)) (n + 1)
        .unicode_escape := by
  simp only [strLoop]
  simp [getC, hx, hn, atEnd_false hp]

/-- The fourth hex digit completes the code point, which is encoded as UTF-8
and appended; the accumulators reset. -/
theorem strLoop_hex_last {s : List Char} {fuel p : Nat} {b : Bool}
    {result : List Char} {cp n : Nat} (hp : p < s.length)
    (hx : isHexDigitC (nth s p) = true) (hn : n + 1 = 4) :
    strLoop s (fuel + 1) ⟨p, b⟩ result cp n .unicode_escape =
      strLoop s fuel ⟨p + 1, false⟩ (result ++ utf8Encode (cp * 16 + hexVal (nth s p)))
        0 0 .normal := by
  simp only [strLoop]
  simp [getC, hx, hn, atEnd_false hp]

/-- A non-hex character inside a Unicode escape is a fatal error anchored at
that character. -/
theorem strLoop_hex_bad {s : List Char} {fuel p : Nat} {b : Bool}
    {result : List Char} {cp n : Nat} (hp : p < s.length)
    (hx : isHexDigitC (nth s p) = false) :
    strLoop s (fuel + 1) ⟨p, b⟩ result cp n .unicode_escape =
      .err ⟨"Invalid hex character in Unicode escape.", some p⟩ := by
  simp only [strLoop]
  simp [getC, hx, atEnd_false hp]

/-- At end of input the string loop fails, anchored at the offset where
input ended (the failed read leaves the position one past it, and the error
takes `pos - 1`). -/
theorem strLoop_eof_err {s : List Char} {fuel p : Nat} {b : Bool}
    {result : List Char} {cp n : Nat} {part : StrPart} (hp : s.length ≤ p) :
    strLoop s (fuel + 1) ⟨p, b⟩ result cp n part =
      .err ⟨"Unterminated string literal.", some p⟩ := by
  simp only [strLoop]
  simp [getC, atEnd_true hp]

/-- Every "Unterminated string literal." error of the string lexer is
anchored at the end-of-input offset `s.length`, whatever state the lexer
was in. -/
theorem strLoop_unterminated_anchor :
    ∀ (fuel : Nat) (s : List Char) (cur : Cursor) (result : List Char)
      (cp n : Nat) (part : StrPart) (q : Nat),
      cur.pos ≤ s.length →
      strLoop s fuel cur result cp n part =
        .err ⟨"Unterminated string literal.", some q⟩ →
      q = s.length := by
  intro fuel
  induction fuel with
  | zero =>
    intro s cur result cp n part q hle h
    simp [strLoop] at h
  | succ fuel ih =>
    intro s cur result cp n part q hle h
    obtain ⟨p, b⟩ := cur
    change p ≤ s.length at hle
    by_cases hp : p < s.length
    · cases part with
      | normal =>
        by_cases hq : nth s p = '"'
        · rw [strLoop_normal_quote hp hq] at h
          exact absurd h (by simp)
        · by_cases hb2 : nth s p = '\\'
          · rw [strLoop_normal_backslash hp hb2] at h
            exact ih s ⟨p + 1, false⟩ result cp n .escape q hp h
          · rw [strLoop_normal_char hp hq hb2] at h
            exact ih s ⟨p + 1, false⟩ (result ++ [nth s p]) cp n .normal q hp h
      | escape =>
        cases hec : escapeCharOf (nth s p) with
        | some ec =>
          rw [strLoop_escape_char hp hec] at h
          exact ih s ⟨p + 1, false⟩ (result ++ [ec]) cp n .normal q hp h
        | none =>
          by_cases hu : nth s p = 'u'
          · rw [strLoop_escape_u hp hu] at h
            exact ih s ⟨p + 1, false⟩ result cp n .unicode_escape q hp h
          · rw [strLoop_escape_bad hp hec hu] at h
            exact absurd h (by simp)
      | unicode_escape =>
        cases hx : isHexDigitC (nth s p) with
        | true =>
          by_cases h4 : n + 1 = 4
          · rw [strLoop_hex_last hp hx h4] at h
            exact ih s ⟨p + 1, false⟩
              (result ++ utf8Encode (cp * 16 + hexVal (nth s p))) 0 0 .normal q
              hp h
          · rw [strLoop_hex_step hp hx h4] at h
            exact ih s ⟨p + 1, false⟩ result (cp * 16 + hexVal (nth s p)) (n + 1)
              .unicode_escape q hp h
        | false =>
          rw [strLoop_hex_bad hp hx] at h
          exact absurd h (by simp)
    · have hple : s.length ≤ p := by omega
      rw [strLoop_eof_err hple] at h
      simp only [Res.err.injEq, JsonParseError.mk.injEq, Option.some.injEq, true_and] at h
      omega

/-- Claim C6 (amended): when end-of-input is reached inside a string literal
before its closing quote, the "Unterminated string literal." error is
anchored at the end-of-input offset `s.length` — regardless of the lexer
state — not at the opening quote or at the escape character; concretely,
the unterminated literal starting at offset 0 of `"123` fails at offset 4. -/
theorem c6_unterminated_string_at_end_of_input :
    (∀ (s : List Char) (fuel : Nat) (cur : Cursor) (result : List Char)
        (cp n : Nat) (part : StrPart) (q : Nat),
        cur.pos ≤ s.length →
        strLoop s fuel cur result cp n part =
          .err ⟨"Unterminated string literal.", some q⟩ →
        q = s.length) ∧
    parse_string "\"123".data 10 ⟨0, false⟩ =
      .err ⟨"Unterminated string literal.", some 4⟩ := by
  exact ⟨fun s fuel cur result cp n part q =>
    strLoop_unterminated_anchor fuel s cur result cp n part q, rfl⟩

theorem c6_unterminated_string_at_end_of_input_witness :
    (⟨0, false⟩ : Cursor).pos ≤ "ab".data.length ∧ (2 : Nat) = "ab".data.length :=
  ⟨by decide, c6_unterminated_string_at_end_of_input.1 "ab".data 5 ⟨0, false⟩ [] 0 0
    .normal 2 (by decide) rfl⟩

/-- Counterexample to claim C6 as stated: for the input `"123` the lexer is
in the `normal` state when input ends, the opening quote is at offset 0, yet
the parse error is positioned at offset 4, not at the opening quote. -/
theorem c6_unterminated_not_at_opening_quote :
    parse_json "\"123".data = .err ⟨"Unterminated string literal.", some 4⟩ ∧
    (⟨"Unterminated string literal.", some 4⟩ : JsonParseError).pos ≠ some 0 :=
  ⟨rfl, by decide⟩

/-! ### UTF-8 encoding correctness -/

/-- `fill_utf8_byte_aux` adds the low `count` bits of the code point into the
byte starting at bit `i` and shifts them out of the code point. -/
theorem fillAux_spec :
    ∀ (count byte cp i : Nat), byte < 2 ^ i →
      fill_utf8_byte_aux byte cp i count =
        (byte + cp % 2 ^ count * 2 ^ i, cp >>> count) := by
  intro count
  induction count with
  | zero =>
    intro byte cp i hb
    simp [fill_utf8_byte_aux, Nat.mod_one]
  | succ count ih =>
    intro byte cp i hb
    have hor : byte ||| (cp &&& 1) <<< i = byte + cp % 2 * 2 ^ i := by
      rw [Nat.and_one_is_mod, Nat.shiftLeft_eq, Nat.lor_comm, mul_comm,
        ← Nat.mul_add_lt_is_or hb]
      ring
    have hb' : byte + cp % 2 * 2 ^ i < 2 ^ (i + 1) := by
      have h1 : cp % 2 ≤ 1 := by omega
      have h3 : cp % 2 * 2 ^ i ≤ 2 ^ i := by
        calc cp % 2 * 2 ^ i ≤ 1 * 2 ^ i := Nat.mul_le_mul_right _ h1
        _ = 2 ^ i := one_mul _
      have h4 : (2 : Nat) ^ (i + 1) = 2 ^ i + 2 ^ i := by rw [pow_succ]; ring
      omega
    have hrec : fill_utf8_byte_aux byte cp i (count + 1) =
        fill_utf8_byte_aux (byte ||| (cp &&& 1) <<< i) (cp >>> 1) (i + 1) count := rfl
    rw [hrec, hor, ih (byte + cp % 2 * 2 ^ i) (cp >>> 1) (i + 1) hb']
    have hsr : cp >>> 1 = cp / 2 := by
      rw [Nat.shiftRight_eq_div_pow, pow_one]
    have hsrc : (cp >>> 1) >>> count = cp >>> (count + 1) := by
      rw [← Nat.shiftRight_add]
      rw [Nat.add_comm]
    rw [hsrc]
    have hmm : cp % 2 ^ (count + 1) = cp % 2 + 2 * (cp / 2 % 2 ^ count) := by
      have h2 : (2 : Nat) ^ (count + 1) = 2 * 2 ^ count := by rw [pow_succ]; ring
      rw [h2, Nat.mod_mul]
    have harith : byte + cp % 2 * 2 ^ i + cp / 2 % 2 ^ count * 2 ^ (i + 1) =
        byte + cp % 2 ^ (count + 1) * 2 ^ i := by
      rw [hmm, pow_succ]; ring
    rw [hsr, harith]

/-- `fill_utf8_byte` on a zero byte extracts exactly the low `count` bits. -/
theorem fill_utf8_byte_spec (cp k : Nat) :
    fill_utf8_byte 0 cp k = (cp % 2 ^ k, cp >>> k) := by
  rw [fill_utf8_byte, fillAux_spec k 0 cp 0 (by norm_num)]
  simp

/-- Or-ing a value into the clear low bits of a constant is addition. -/
theorem or_const_eq_add {k i a x : Nat} (hk : k = 2 ^ i * a) (hx : x < 2 ^ i) :
    x ||| k = k + x := by
  rw [Nat.lor_comm, hk, ← Nat.mul_add_lt_is_or hx]

/-- Modelled from the claim's words: the standard UTF-8 encoding of a Basic
Multilingual Plane code point, written arithmetically — one byte up to
`0x7F`, `110xxxxx 10xxxxxx` up to `0x7FF`, `1110xxxx 10xxxxxx 10xxxxxx`
otherwise. -/
def utf8Spec (cp : Nat) : List Char :=
  if cp ≤ 0x7F then [Char.ofNat cp]
  else if cp ≤ 0x7FF then
    [Char.ofNat (0xC0 + cp / 64), Char.ofNat (0x80 + cp % 64)]
  else
    [Char.ofNat (0xE0 + cp / 4096), Char.ofNat (0x80 + cp / 64 % 64),
      Char.ofNat (0x80 + cp % 64)]

/-- The parser's bit-by-bit UTF-8 encoder agrees with the standard encoding
on the whole Basic Multilingual Plane. -/
theorem utf8Encode_std (cp : Nat) (h : cp < 65536) :
    utf8Encode cp = utf8Spec cp := by
  rw [utf8Encode, utf8Spec]
  by_cases h1 : cp ≤ 0x7F
  · simp [h1]
  · simp only [if_neg h1]
    have hs6 : cp >>> 6 = cp / 64 := by
      rw [Nat.shiftRight_eq_div_pow]
    have e3 : cp % 64 ||| 0x80 = 0x80 + cp % 64 := by
      refine or_const_eq_add (by norm_num : (0x80 : Nat) = 2 ^ 7 * 1) ?_
      have := Nat.mod_lt cp (show 0 < 64 by norm_num)
      norm_num
      omega
    by_cases h2 : cp ≤ 0x7FF
    · simp only [if_pos h2, fill_utf8_byte_spec]
      have hlt : cp / 64 < 32 := by omega
      have e1 : cp >>> 6 % 2 ^ 5 ||| 0xC0 = 0xC0 + cp / 64 := by
        rw [hs6, Nat.mod_eq_of_lt (by norm_num; omega)]
        refine or_const_eq_add (by norm_num : (0xC0 : Nat) = 2 ^ 6 * 3) ?_
        norm_num
        omega
      have e2 : cp % 2 ^ 6 ||| 0x80 = 0x80 + cp % 64 := by
        rw [show (2 : Nat) ^ 6 = 64 from by norm_num]
        exact e3
      rw [e1, e2]
    · simp only [if_neg h2, fill_utf8_byte_spec]
      have hs12 : (cp >>> 6) >>> 6 = cp / 4096 := by
        rw [← Nat.shiftRight_add, Nat.shiftRight_eq_div_pow]
      have e1 : (cp >>> 6) >>> 6 % 2 ^ 4 ||| 0xE0 = 0xE0 + cp / 4096 := by
        rw [hs12, Nat.mod_eq_of_lt (by norm_num; omega)]
        refine or_const_eq_add (by norm_num : (0xE0 : Nat) = 2 ^ 5 * 7) ?_
        norm_num
        omega
      have e2 : cp >>> 6 % 2 ^ 6 ||| 0x80 = 0x80 + cp / 64 % 64 := by
        rw [hs6, show (2 : Nat) ^ 6 = 64 from by norm_num]
        refine or_const_eq_add (by norm_num : (0x80 : Nat) = 2 ^ 7 * 1) ?_
        have := Nat.mod_lt (cp / 64) (show 0 < 64 by norm_num)
        norm_num
        omega
      have e2' : cp % 2 ^ 6 ||| 0x80 = 0x80 + cp % 64 := by
        rw [show (2 : Nat) ^ 6 = 64 from by norm_num]
        exact e3
      rw [e1, e2, e2']

/-- A hexadecimal digit's value is below 16. -/
theorem hexVal_lt {c : Char} (h : isHexDigitC c = true) : hexVal c < 16 := by
  simp [isHexDigitC, isDigitC] at h
  simp only [hexVal]
  split_ifs <;> omega

/-- A full `\uXXXX` escape read in the `normal` state: the four hex digits
are accumulated most-significant first into one code point, which on the
fourth digit is UTF-8-encoded and appended; the lexer returns to the
`normal` state six characters later. -/
theorem strLoop_unicode_escape_step {s : List Char} (fuel p : Nat) (b : Bool)
    (result : List Char) (h1 h2 h3 h4 : Char)
    (hr : readsAt s p ['\\', 'u', h1, h2, h3, h4] = true)
    (hx1 : isHexDigitC h1 = true) (hx2 : isHexDigitC h2 = true)
    (hx3 : isHexDigitC h3 = true) (hx4 : isHexDigitC h4 = true) :
    strLoop s (fuel + 6) ⟨p, b⟩ result 0 0 .normal =
      strLoop s fuel ⟨p + 6, false⟩
        (result ++ utf8Encode
          (((hexVal h1 * 16 + hexVal h2) * 16 + hexVal h3) * 16 + hexVal h4))
        0 0 .normal := by
  obtain ⟨hc0, hp0, hr⟩ := readsAt_cons.mp hr
  obtain ⟨hc1, hp1, hr⟩ := readsAt_cons.mp hr
  obtain ⟨hc2, hp2, hr⟩ := readsAt_cons.mp hr
  obtain ⟨hc3, hp3, hr⟩ := readsAt_cons.mp hr
  obtain ⟨hc4, hp4, hr⟩ := readsAt_cons.mp hr
  obtain ⟨hc5, hp5, _⟩ := readsAt_cons.mp hr
  have hx2' : isHexDigitC (nth s (p + 1 + 1)) = true := by rw [hc2]; exact hx1
  have hx3' : isHexDigitC (nth s (p + 1 + 1 + 1)) = true := by rw [hc3]; exact hx2
  have hx4' : isHexDigitC (nth s (p + 1 + 1 + 1 + 1)) = true := by rw [hc4]; exact hx3
  have hx5' : isHexDigitC (nth s (p + 1 + 1 + 1 + 1 + 1)) = true := by rw [hc5]; exact hx4
  rw [show fuel + 6 = fuel + 5 + 1 from by omega]
  rw [strLoop_normal_backslash hp0 hc0]
  rw [show fuel + 5 = fuel + 4 + 1 from by omega]
  rw [strLoop_escape_u hp1 hc1]
  rw [show fuel + 4 = fuel + 3 + 1 from by omega]
  rw [strLoop_hex_step hp2 hx2' (by decide), hc2]
  rw [show fuel + 3 = fuel + 2 + 1 from by omega]
  rw [strLoop_hex_step hp3 hx3' (by decide), hc3]
  rw [show fuel + 2 = fuel + 1 + 1 from by omega]
  rw [strLoop_hex_step hp4 hx4' (by decide), hc4]
  rw [show fuel + 1 = fuel + 0 + 1 from by omega]
  rw [strLoop_hex_last hp5 hx5' (by decide), hc5]
  rw [show p + 1 + 1 + 1 + 1 + 1 + 1 = p + 6 from by omega]
  rw [show (((0 * 16 + hexVal h1) * 16 + hexVal h2) * 16 + hexVal h3) * 16 + hexVal h4 =
    ((hexVal h1 * 16 + hexVal h2) * 16 + hexVal h3) * 16 + hexVal h4 from by ring]

/-- Claim C3: a `\uXXXX` escape accumulates exactly four case-insensitive
hex digits into a code point below `2^16`, and on the fourth digit appends
its standard UTF-8 encoding (1 byte up to `0x7F`, 2 bytes up to `0x7FF`,
3 bytes otherwise) to the result; a non-hex character among the four is a
fatal error anchored at that character's offset. -/
theorem c3_unicode_escape_utf8 :
    (∀ (s : List Char) (fuel p : Nat) (b : Bool) (result : List Char)
        (h1 h2 h3 h4 : Char),
        readsAt s p ['\\', 'u', h1, h2, h3, h4] = true →
        isHexDigitC h1 = true → isHexDigitC h2 = true →
        isHexDigitC h3 = true → isHexDigitC h4 = true →
        ((hexVal h1 * 16 + hexVal h2) * 16 + hexVal h3) * 16 + hexVal h4 < 65536 ∧
          strLoop s (fuel + 6) ⟨p, b⟩ result 0 0 .normal =
            strLoop s fuel ⟨p + 6, false⟩
              (result ++ utf8Encode
                (((hexVal h1 * 16 + hexVal h2) * 16 + hexVal h3) * 16 + hexVal h4))
              0 0 .normal) ∧
    (∀ cp : Nat, cp < 65536 → utf8Encode cp = utf8Spec cp) ∧
    (∀ (s : List Char) (fuel p : Nat) (b : Bool) (result : List Char) (cp n : Nat),
        p < s.length → isHexDigitC (nth s p) = false →
        strLoop s (fuel + 1) ⟨p, b⟩ result cp n .unicode_escape =
          .err ⟨"Invalid hex character in Unicode escape.", some p⟩) := by
  refine ⟨?_, utf8Encode_std, fun s fuel p b result cp n hp hx => strLoop_hex_bad hp hx⟩
  intro s fuel p b result h1 h2 h3 h4 hr hx1 hx2 hx3 hx4
  refine ⟨?_, strLoop_unicode_escape_step fuel p b result h1 h2 h3 h4 hr hx1 hx2 hx3 hx4⟩
  have l1 := hexVal_lt hx1
  have l2 := hexVal_lt hx2
  have l3 := hexVal_lt hx3
  have l4 := hexVal_lt hx4
  omega

theorem c3_unicode_escape_utf8_witness :
    (((hexVal '0' * 16 + hexVal '0') * 16 + hexVal 'e') * 16 + hexVal '9' < 65536 ∧
      strLoop "\\u00e9\"".data 7 ⟨0, false⟩ [] 0 0 .normal =
        strLoop "\\u00e9\"".data 1 ⟨6, false⟩
          ([] ++ utf8Encode
            (((hexVal '0' * 16 + hexVal '0') * 16 + hexVal 'e') * 16 + hexVal '9'))
          0 0 .normal) ∧
    utf8Encode 233 = utf8Spec 233 ∧
    strLoop "z".data 1 ⟨0, false⟩ [] 0 0 .unicode_escape =
      .err ⟨"Invalid hex character in Unicode escape.", some 0⟩ :=
  ⟨c3_unicode_escape_utf8.1 "\\u00e9\"".data 1 0 false [] '0' '0' 'e' '9'
      (by decide) (by decide) (by decide) (by decide) (by decide),
    c3_unicode_escape_utf8.2.1 233 (by decide),
    c3_unicode_escape_utf8.2.2 "z".data 0 0 false [] 0 0 (by decide) (by decide)⟩

/-! ### `parse_literal_name` lemmas -/

/-- End of input during literal accumulation: fatal, anchored at the start. -/
theorem litLoop_eof {s : List Char} {fuel p : Nat} {b : Bool}
    {name : List Char} {sp : Nat} (hp : s.length ≤ p) :
    litLoop s (fuel + 1) ⟨p, b⟩ name sp = .err ⟨"Invalid literal.", some sp⟩ := by
  simp only [litLoop]
  simp [getC, atEnd_true hp]

/-- Accumulating past five characters without a match: fatal, anchored at
the start. -/
theorem litLoop_long {s : List Char} {fuel p : Nat} {b : Bool}
    {name : List Char} {sp : Nat} (hp : p < s.length) (h5 : 5 ≤ name.length) :
    litLoop s (fuel + 1) ⟨p, b⟩ name sp = .err ⟨"Invalid literal.", some sp⟩ := by
  have hlen : (name ++ [nth s p]).length > 5 := by simp; omega
  simp only [litLoop]
  simp [getC, atEnd_false hp, hlen]
  intro h6
  omega

/-- A non-final character is appended to the candidate and the loop
continues. -/
theorem litLoop_step {s : List Char} {fuel p : Nat} {b : Bool}
    {name : List Char} {sp : Nat} (hp : p < s.length) (h5 : name.length + 1 ≤ 5)
    (ht : name ++ [nth s p] ≠ "true".data)
    (hf : name ++ [nth s p] ≠ "false".data)
    (hn : name ++ [nth s p] ≠ "null".data) :
    litLoop s (fuel + 1) ⟨p, b⟩ name sp =
      litLoop s fuel ⟨p + 1, false⟩ (name ++ [nth s p]) sp := by
  have hlen : ¬((name ++ [nth s p]).length > 5) := by simp; omega
  simp only [litLoop]
  simp [getC, atEnd_false hp, hlen, ht, hf, hn]
  intro h6
  omega

/-- The candidate completes `true`. -/
theorem litLoop_true_done {s : List Char} {fuel p : Nat} {b : Bool}
    {name : List Char} {sp : Nat} (hp : p < s.length)
    (h : name ++ [nth s p] = "true".data) :
    litLoop s (fuel + 1) ⟨p, b⟩ name sp = .ok (.bool true, ⟨p + 1, false⟩) := by
  have hlen : ¬((name ++ [nth s p]).length > 5) := by rw [h]; decide
  simp only [litLoop]
  simp [getC, atEnd_false hp, hlen, h]

/-- The candidate completes `false`. -/
theorem litLoop_false_done {s : List Char} {fuel p : Nat} {b : Bool}
    {name : List Char} {sp : Nat} (hp : p < s.length)
    (h : name ++ [nth s p] = "false".data) :
    litLoop s (fuel + 1) ⟨p, b⟩ name sp = .ok (.bool false, ⟨p + 1, false⟩) := by
  have hlen : ¬((name ++ [nth s p]).length > 5) := by rw [h]; decide
  have ht : name ++ [nth s p] ≠ "true".data := by rw [h]; decide
  simp only [litLoop]
  simp [getC, atEnd_false hp, hlen, ht, h]

/-- The candidate completes `null`. -/
theorem litLoop_null_done {s : List Char} {fuel p : Nat} {b : Bool}
    {name : List Char} {sp : Nat} (hp : p < s.length)
    (h : name ++ [nth s p] = "null".data) :
    litLoop s (fuel + 1) ⟨p, b⟩ name sp = .ok (.null, ⟨p + 1, false⟩) := by
  have hlen : ¬((name ++ [nth s p]).length > 5) := by rw [h]; decide
  have ht : name ++ [nth s p] ≠ "true".data := by rw [h]; decide
  have hf : name ++ [nth s p] ≠ "false".data := by rw [h]; decide
  simp only [litLoop]
  simp [getC, atEnd_false hp, hlen, ht, hf, h]

/-- Every error of the literal lexer is "Invalid literal." anchored at the
recorded starting offset. -/
theorem litLoop_err_anchor {s : List Char} {sp : Nat} :
    ∀ {fuel : Nat} {cur : Cursor} {name : List Char} {e : JsonParseError},
      litLoop s fuel cur name sp = .err e → e = ⟨"Invalid literal.", some sp⟩ := by
  intro fuel
  induction fuel with
  | zero => intro cur name e h; simp [litLoop] at h
  | succ fuel ih =>
    intro cur name e h
    simp only [litLoop] at h
    split at h
    · exact (Res.err.injEq .. ▸ h).symm ▸ rfl
    · split at h
      · exact (Res.err.injEq .. ▸ h).symm ▸ rfl
      · split at h
        · exact absurd h (by simp)
        · split at h
          · exact absurd h (by simp)
          · split at h
            · exact absurd h (by simp)
            · exact ih h

/-- Reading `true` returns the Boolean true value, four characters on. -/
theorem parse_literal_true {s : List Char} (fuel p : Nat) (b : Bool)
    (hr : readsAt s p ['t', 'r', 'u', 'e'] = true) :
    parse_literal_name s (fuel + 4) ⟨p, b⟩ = .ok (.bool true, ⟨p + 4, false⟩) := by
  obtain ⟨h0, hp0, hr⟩ := readsAt_cons.mp hr
  obtain ⟨h1, hp1, hr⟩ := readsAt_cons.mp hr
  obtain ⟨h2, hp2, hr⟩ := readsAt_cons.mp hr
  obtain ⟨h3, hp3, _⟩ := readsAt_cons.mp hr
  rw [parse_literal_name]
  rw [show fuel + 4 = fuel + 3 + 1 from by omega]
  rw [litLoop_step hp0 (by decide) (by rw [h0]; decide) (by rw [h0]; decide)
    (by rw [h0]; decide), h0]
  rw [show fuel + 3 = fuel + 2 + 1 from by omega]
  rw [litLoop_step hp1 (by decide) (by rw [h1]; decide) (by rw [h1]; decide)
    (by rw [h1]; decide), h1]
  rw [show fuel + 2 = fuel + 1 + 1 from by omega]
  rw [litLoop_step hp2 (by decide) (by rw [h2]; decide) (by rw [h2]; decide)
    (by rw [h2]; decide), h2]
  rw [litLoop_true_done hp3 (by rw [h3]; decide)]

/-- Reading `false` returns the Boolean false value, five characters on. -/
theorem parse_literal_false {s : List Char} (fuel p : Nat) (b : Bool)
    (hr : readsAt s p ['f', 'a', 'l', 's', 'e'] = true) :
    parse_literal_name s (fuel + 5) ⟨p, b⟩ = .ok (.bool false, ⟨p + 5, false⟩) := by
  obtain ⟨h0, hp0, hr⟩ := readsAt_cons.mp hr
  obtain ⟨h1, hp1, hr⟩ := readsAt_cons.mp hr
  obtain ⟨h2, hp2, hr⟩ := readsAt_cons.mp hr
  obtain ⟨h3, hp3, hr⟩ := readsAt_cons.mp hr
  obtain ⟨h4, hp4, _⟩ := readsAt_cons.mp hr
  rw [parse_literal_name]
  rw [show fuel + 5 = fuel + 4 + 1 from by omega]
  rw [litLoop_step hp0 (by decide) (by rw [h0]; decide) (by rw [h0]; decide)
    (by rw [h0]; decide), h0]
  rw [show fuel + 4 = fuel + 3 + 1 from by omega]
  rw [litLoop_step hp1 (by decide) (by rw [h1]; decide) (by rw [h1]; decide)
    (by rw [h1]; decide), h1]
  rw [show fuel + 3 = fuel + 2 + 1 from by omega]
  rw [litLoop_step hp2 (by decide) (by rw [h2]; decide) (by rw [h2]; decide)
    (by rw [h2]; decide), h2]
  rw [show fuel + 2 = fuel + 1 + 1 from by omega]
  rw [litLoop_step hp3 (by decide) (by rw [h3]; decide) (by rw [h3]; decide)
    (by rw [h3]; decide), h3]
  rw [litLoop_false_done hp4 (by rw [h4]; decide)]

/-- Reading `null` returns the Null value, four characters on. -/
theorem parse_literal_null {s : List Char} (fuel p : Nat) (b : Bool)
    (hr : readsAt s p ['n', 'u', 'l', 'l'] = true) :
    parse_literal_name s (fuel + 4) ⟨p, b⟩ = .ok (.null, ⟨p + 4, false⟩) := by
  obtain ⟨h0, hp0, hr⟩ := readsAt_cons.mp hr
  obtain ⟨h1, hp1, hr⟩ := readsAt_cons.mp hr
  obtain ⟨h2, hp2, hr⟩ := readsAt_cons.mp hr
  obtain ⟨h3, hp3, _⟩ := readsAt_cons.mp hr
  rw [parse_literal_name]
  rw [show fuel + 4 = fuel + 3 + 1 from by omega]
  rw [litLoop_step hp0 (by decide) (by rw [h0]; decide) (by rw [h0]; decide)
    (by rw [h0]; decide), h0]
  rw [show fuel + 3 = fuel + 2 + 1 from by omega]
  rw [litLoop_step hp1 (by decide) (by rw [h1]; decide) (by rw [h1]; decide)
    (by rw [h1]; decide), h1]
  rw [show fuel + 2 = fuel + 1 + 1 from by omega]
  rw [litLoop_step hp2 (by decide) (by rw [h2]; decide) (by rw [h2]; decide)
    (by rw [h2]; decide), h2]
  rw [litLoop_null_done hp3 (by rw [h3]; decide)]

/-- Claim C9: the literal lexer accumulates characters until the candidate
equals `true`, `false` or `null` (returning the Boolean true, Boolean false
or Null value), and fails with "Invalid literal." anchored at the literal's
starting offset when end-of-input arrives first or the candidate exceeds
five characters (the longest keyword's length) without matching — as for
`[troeeeeeeeee]`, whose literal starting at offset 1 is rejected there. -/
theorem c9_literal_lexer :
    (∀ (s : List Char) (fuel p : Nat) (b : Bool),
        readsAt s p ['t', 'r', 'u', 'e'] = true →
        parse_literal_name s (fuel + 4) ⟨p, b⟩ = .ok (.bool true, ⟨p + 4, false⟩)) ∧
    (∀ (s : List Char) (fuel p : Nat) (b : Bool),
        readsAt s p ['f', 'a', 'l', 's', 'e'] = true →
        parse_literal_name s (fuel + 5) ⟨p, b⟩ = .ok (.bool false, ⟨p + 5, false⟩)) ∧
    (∀ (s : List Char) (fuel p : Nat) (b : Bool),
        readsAt s p ['n', 'u', 'l', 'l'] = true →
        parse_literal_name s (fuel + 4) ⟨p, b⟩ = .ok (.null, ⟨p + 4, false⟩)) ∧
    (∀ (s : List Char) (fuel : Nat) (cur : Cursor) (e : JsonParseError),
        parse_literal_name s fuel cur = .err e →
        e = ⟨"Invalid literal.", some cur.pos⟩) ∧
    (∀ (s : List Char) (fuel p : Nat) (b : Bool) (name : List Char) (sp : Nat),
        s.length ≤ p →
        litLoop s (fuel + 1) ⟨p, b⟩ name sp = .err ⟨"Invalid literal.", some sp⟩) ∧
    (∀ (s : List Char) (fuel p : Nat) (b : Bool) (name : List Char) (sp : Nat),
        p < s.length → 5 ≤ name.length →
        litLoop s (fuel + 1) ⟨p, b⟩ name sp = .err ⟨"Invalid literal.", some sp⟩) ∧
    parse_json "[troeeeeeeeee]".data = .err ⟨"Invalid literal.", some 1⟩ := by
  refine ⟨fun s fuel p b hr => parse_literal_true fuel p b hr,
    fun s fuel p b hr => parse_literal_false fuel p b hr,
    fun s fuel p b hr => parse_literal_null fuel p b hr,
    fun s fuel cur e h => litLoop_err_anchor h,
    fun s fuel p b name sp hp => litLoop_eof hp,
    fun s fuel p b name sp hp h5 => litLoop_long hp h5, rfl⟩

theorem c9_literal_lexer_witness :
    parse_literal_name "true".data 4 ⟨0, false⟩ = .ok (.bool true, ⟨4, false⟩) ∧
    parse_literal_name "false".data 5 ⟨0, false⟩ = .ok (.bool false, ⟨5, false⟩) ∧
    parse_literal_name "null".data 4 ⟨0, false⟩ = .ok (.null, ⟨4, false⟩) ∧
    (⟨"Invalid literal.", some 0⟩ : JsonParseError) = ⟨"Invalid literal.", some 0⟩ ∧
    litLoop "".data 1 ⟨0, false⟩ [] 0 = .err ⟨"Invalid literal.", some 0⟩ ∧
    litLoop "zzzzzzz".data 1 ⟨5, false⟩ ['z', 'z', 'z', 'z', 'z'] 0 =
      .err ⟨"Invalid literal.", some 0⟩ :=
  ⟨c9_literal_lexer.1 "true".data 0 0 false (by decide),
    c9_literal_lexer.2.1 "false".data 0 0 false (by decide),
    c9_literal_lexer.2.2.1 "null".data 0 0 false (by decide),
    c9_literal_lexer.2.2.2.1 "t".data 2 ⟨0, false⟩ _ rfl,
    c9_literal_lexer.2.2.2.2.1 "".data 0 0 false [] 0 (by decide),
    c9_literal_lexer.2.2.2.2.2.1 "zzzzzzz".data 0 5 false ['z', 'z', 'z', 'z', 'z'] 0
      (by decide) (by decide)⟩

/-! ### `parse_json` driver lemmas -/

/-- At end of input the driver returns the parsed value, or fails with the
unpositioned `INVALID_JSON_DATA` if no value was parsed. -/
theorem jsonLoop_eof {s : List Char} {fuel p : Nat} {b : Bool}
    {result : JsonValue} {parsed : Bool} (hp : s.length ≤ p) :
    jsonLoop s (fuel + 1) ⟨p, b⟩ result parsed =
      if parsed then .ok result else .err ⟨INVALID_JSON_DATA, none⟩ := by
  simp only [jsonLoop]
  simp [peekC, atEnd_true hp]

/-- Whitespace at the driver level is skipped. -/
theorem jsonLoop_ws {s : List Char} {fuel p : Nat} {b : Bool}
    {result : JsonValue} {parsed : Bool} (hp : p < s.length)
    (hw : isWsChar (nth s p) = true) :
    jsonLoop s (fuel + 1) ⟨p, b⟩ result parsed =
      jsonLoop s fuel ⟨p + 1, atEnd s (p + 1)⟩ result parsed := by
  simp only [jsonLoop]
  simp [peekC, incC, atEnd_false hp, hw]

/-- A non-whitespace character after the single value has been parsed is the
unpositioned `INVALID_JSON_DATA` failure. -/
theorem jsonLoop_trailing_err {s : List Char} {fuel p : Nat} {b : Bool}
    {result : JsonValue} (hp : p < s.length)
    (hw : isWsChar (nth s p) = false) :
    jsonLoop s (fuel + 1) ⟨p, b⟩ result true =
      .err ⟨INVALID_JSON_DATA, none⟩ := by
  simp only [jsonLoop]
  simp [peekC, atEnd_false hp, hw]

/-- If everything from the cursor to the end of input is whitespace, the
driver loop ends the input: the parsed value if one was parsed, the
unpositioned failure otherwise. -/
theorem jsonLoop_ws_tail {s : List Char} :
    ∀ (fuel p : Nat) (b : Bool) (result : JsonValue) (parsed : Bool),
      s.length ≤ p + fuel →
      (∀ q, p ≤ q → q < s.length → isWsChar (nth s q) = true) →
      jsonLoop s (fuel + 1) ⟨p, b⟩ result parsed =
        if parsed then .ok result else .err ⟨INVALID_JSON_DATA, none⟩ := by
  intro fuel
  induction fuel with
  | zero =>
    intro p b result parsed hlen hws
    exact jsonLoop_eof (by omega)
  | succ fuel ih =>
    intro p b result parsed hlen hws
    by_cases hp : p < s.length
    · rw [jsonLoop_ws hp (hws p (le_refl p) hp)]
      exact ih (p + 1) (atEnd s (p + 1)) result parsed (by omega)
        (fun q h1 h2 => hws q (by omega) h2)
    · exact jsonLoop_eof (by omega)

/-- After the single value, any later non-whitespace character (with only
whitespace before it) makes the driver fail with the unpositioned
`INVALID_JSON_DATA`. -/
theorem jsonLoop_trailing {s : List Char} :
    ∀ (fuel p : Nat) (b : Bool) (result : JsonValue) (q : Nat),
      p ≤ q → q < s.length →
      (∀ r, p ≤ r → r < q → isWsChar (nth s r) = true) →
      isWsChar (nth s q) = false → q - p < fuel →
      jsonLoop s fuel ⟨p, b⟩ result true = .err ⟨INVALID_JSON_DATA, none⟩ := by
  intro fuel
  induction fuel with
  | zero => intro p b result q h1 h2 h3 h4 h5; omega
  | succ fuel ih =>
    intro p b result q h1 h2 h3 h4 h5
    by_cases hpq : p = q
    · subst hpq
      exact jsonLoop_trailing_err h2 h4
    · have hws : isWsChar (nth s p) = true := h3 p (le_refl p) (by omega)
      rw [jsonLoop_ws (by omega) hws]
      exact ih (p + 1) (atEnd s (p + 1)) result q (by omega) h2
        (fun r hr1 hr2 => h3 r (by omega) hr2) h4 (by omega)

/-- Claim C4: the driver accepts exactly one value optionally surrounded by
whitespace — input that is empty or all whitespace fails, and a parsed value
followed by any non-whitespace content fails, both with the fixed
`INVALID_JSON_DATA` message carrying no position (its rendered message
embeds no offset, unlike every positioned failure). -/
theorem c4_driver_single_value :
    (∀ s : List Char, (∀ c ∈ s, isWsChar c = true) →
      parse_json s = .err ⟨INVALID_JSON_DATA, none⟩) ∧
    (∀ (s : List Char) (fuel p q : Nat) (b : Bool) (result : JsonValue),
      p ≤ q → q < s.length →
      (∀ r, p ≤ r → r < q → isWsChar (nth s r) = true) →
      isWsChar (nth s q) = false → q - p < fuel →
      jsonLoop s fuel ⟨p, b⟩ result true = .err ⟨INVALID_JSON_DATA, none⟩) ∧
    parse_json "[1,2,3][0]".data = .err ⟨INVALID_JSON_DATA, none⟩ ∧
    (⟨INVALID_JSON_DATA, none⟩ : JsonParseError).what = "Invalid JSON data." ∧
    (∀ (m : String) (p : Nat),
      (⟨m, some p⟩ : JsonParseError).what =
        "Error at position " ++ toString p ++ ": " ++ m) := by
  refine ⟨?_, fun s fuel p q b result h1 h2 h3 h4 h5 =>
      jsonLoop_trailing fuel p b result q h1 h2 h3 h4 h5,
    rfl, rfl, fun m p => rfl⟩
  intro s hws
  rw [parse_json]
  rw [show fuelFor s.length = (8 * s.length + 15) + 1 from by rw [fuelFor]]
  rw [jsonLoop_ws_tail (8 * s.length + 15) 0 false .null false (by omega) ?_]
  · rfl
  · intro q h1 h2
    have : nth s q ∈ s := by
      rw [nth, List.getD_eq_getElem?_getD, List.getElem?_eq_getElem h2]
      exact List.getElem_mem h2
    exact hws _ this

theorem c4_driver_single_value_witness :
    parse_json " ".data = .err ⟨INVALID_JSON_DATA, none⟩ ∧
    jsonLoop "x".data 1 ⟨0, false⟩ .null true = .err ⟨INVALID_JSON_DATA, none⟩ ∧
    (⟨"Expected value.", some 5⟩ : JsonParseError).what =
      "Error at position 5: Expected value." :=
  ⟨c4_driver_single_value.1 " ".data (by decide),
    c4_driver_single_value.2.1 "x".data 1 0 0 false .null (by omega) (by decide)
      (by intro r hr1 hr2; omega) (by decide) (by omega),
    c4_driver_single_value.2.2.2.2 "Expected value." 5⟩

/-! ### `parse_array` loop lemmas -/

/-- Whitespace inside an array (between elements and separators) is
skipped. -/
theorem arrLoop_ws_step {s : List Char} {fuel p : Nat} {b : Bool}
    {array : List JsonValue} {ec : Bool} (hp : p < s.length)
    (hw : isWsChar (nth s p) = true) :
    parseMut s (fuel + 1) (.arrayLoop array ec) ⟨p, b⟩ =
      parseMut s fuel (.arrayLoop array ec) ⟨p + 1, atEnd s (p + 1)⟩ := by
  simp only [parseMut]
  simp [peekC, incC, atEnd_false hp, hw]

/-- A closing bracket while a value is expected in a non-empty array (the
state right after a comma) is the "Expected value." failure, anchored at the
bracket. -/
theorem arrLoop_rb_expected_value {s : List Char} {fuel p : Nat} {b : Bool}
    {array : List JsonValue} (hp : p < s.length) (hc : nth s p = ']')
    (hne : array.isEmpty = false) :
    parseMut s (fuel + 1) (.arrayLoop array false) ⟨p, b⟩ =
      .err ⟨"Expected value.", some p⟩ := by
  simp only [parseMut]
  simp [peekC, atEnd_false hp, hc, hne, isWsChar, structuralOf]

/-- After a comma, whitespace then a closing bracket is the "Expected
value." failure anchored at the bracket's offset. -/
theorem arrLoop_comma_ws_rb {s : List Char} :
    ∀ (w : List Char) (fuel p : Nat) (b : Bool) (array : List JsonValue),
      (∀ c ∈ w, isWsChar c = true) →
      readsAt s p (w ++ [']']) = true →
      array.isEmpty = false →
      parseMut s (fuel + w.length + 1) (.arrayLoop array false) ⟨p, b⟩ =
        .err ⟨"Expected value.", some (p + w.length)⟩ := by
  intro w
  induction w with
  | nil =>
    intro fuel p b array hw hr hne
    obtain ⟨hc, hp, _⟩ := readsAt_cons.mp hr
    exact arrLoop_rb_expected_value hp hc hne
  | cons c w ih =>
    intro fuel p b array hw hr hne
    obtain ⟨hc, hp, hr⟩ := readsAt_cons.mp (by simpa using hr)
    have hwc : isWsChar (nth s p) = true := by
      rw [hc]; exact hw c (List.mem_cons_self c w)
    rw [show fuel + (c :: w).length + 1 = (fuel + w.length + 1) + 1 from by
      simp; omega]
    rw [arrLoop_ws_step hp hwc]
    rw [ih fuel (p + 1) (atEnd s (p + 1)) array
      (fun d hd => hw d (List.mem_cons_of_mem c hd)) hr hne]
    rw [show p + 1 + w.length = p + (c :: w).length from by simp; omega]

/-- Claim C5: in a non-empty array, a comma followed (possibly after
whitespace) by the closing bracket fails with "Expected value." anchored at
the bracket's offset — e.g. offset 5 for ` [5, ]` — while the empty array
`[]` and the empty object parse to the empty containers. -/
theorem c5_comma_then_close_expected_value :
    (∀ (s w : List Char) (fuel p : Nat) (b : Bool) (array : List JsonValue),
        (∀ c ∈ w, isWsChar c = true) →
        readsAt s p (w ++ [']']) = true →
        array.isEmpty = false →
        parseMut s (fuel + w.length + 1) (.arrayLoop array false) ⟨p, b⟩ =
          .err ⟨"Expected value.", some (p + w.length)⟩) ∧
    parse_json " [5, ]".data = .err ⟨"Expected value.", some 5⟩ ∧
    parse_json "[]".data = .ok (.arr []) ∧
    parse_json "\x7b\x7d".data = .ok (.obj []) := by
  exact ⟨fun s w fuel p b array => arrLoop_comma_ws_rb w fuel p b array,
    rfl, rfl, rfl⟩

theorem c5_comma_then_close_expected_value_witness :
    parseMut "]".data 1 (.arrayLoop [JsonValue.null] false) ⟨0, false⟩ =
      .err ⟨"Expected value.", some 0⟩ :=
  c5_comma_then_close_expected_value.1 "]".data [] 0 0 false [JsonValue.null]
    (fun c h => absurd h (List.not_mem_nil c)) (by decide) rfl

/-! ### `parse_object` duplicate-key lemmas -/

/-- In the key-expecting state, a quoted key that parses successfully but is
already present in the object under construction is fatal: "Duplicate key
disallowed.", anchored at the key's opening quote (recorded before the key
string is parsed), and no binding is added. -/
theorem objLoop_dup_key {s : List Char} {fuel p : Nat} {b : Bool}
    {object : List (List Char × JsonValue)} {key k : List Char} {cur1 : Cursor}
    (hp : p < s.length) (hq : nth s p = '"')
    (hps : parse_string s fuel ⟨p, b⟩ = .ok (k, cur1))
    (hdup : objHasKey object k = true) :
    parseMut s (fuel + 1) (.objectLoop object key .name) ⟨p, b⟩ =
      .err ⟨"Duplicate key disallowed.", some p⟩ := by
  simp only [parseMut]
  simp [peekC, atEnd_false hp, hq, hps, hdup, isWsChar, structuralOf]

/-- Claim C10: a second occurrence of an object key raises "Duplicate key
disallowed." positioned at the opening quote of the second occurrence (the
offset recorded before the key string is parsed), no binding being added —
concretely, the document with keys `a`, `b`, `a` fails at offset 15, the
second `"a"`'s quote. -/
theorem c10_duplicate_key_position :
    (∀ (s : List Char) (fuel p : Nat) (b : Bool)
        (object : List (List Char × JsonValue)) (key k : List Char)
        (cur1 : Cursor),
        p < s.length → nth s p = '"' →
        parse_string s fuel ⟨p, b⟩ = .ok (k, cur1) →
        objHasKey object k = true →
        parseMut s (fuel + 1) (.objectLoop object key .name) ⟨p, b⟩ =
          .err ⟨"Duplicate key disallowed.", some p⟩) ∧
    parse_json "\x7b\"a\":25,\"b\":24,\"a\":3.14\x7d".data =
      .err ⟨"Duplicate key disallowed.", some 15⟩ :=
  ⟨fun _s _fuel _p _b _object _key _k _cur1 hp hq hps hdup =>
    objLoop_dup_key hp hq hps hdup, rfl⟩

theorem c10_duplicate_key_position_witness :
    parseMut "\"a\":1\x7d".data 3 (.objectLoop [(['a'], .num 1)] [] .name) ⟨0, false⟩ =
      .err ⟨"Duplicate key disallowed.", some 0⟩ :=
  c10_duplicate_key_position.1 "\"a\":1\x7d".data 2 0 false [(['a'], .num 1)] []
    ['a'] ⟨3, false⟩ (by decide) (by decide) rfl (by decide)

/-- Claim C1: the implementation does NOT permit duplicate keys — the very
document its own test suite feeds it (`{"a": 25, "b": 24, "a": 3.14}`,
expected there to parse with `a` bound to `3.14`) is rejected with
"Duplicate key disallowed." at offset 19, the second `"a"`'s opening
quote. -/
theorem c1_duplicate_key_rejected :
    parse_json "\x7b\"a\": 25, \"b\": 24, \"a\": 3.14\x7d".data =
      .err ⟨"Duplicate key disallowed.", some 19⟩ := rfl
